import Mathlib

/-!
# Verification of the Bridge-Lessons auction pipeline

Shallow embedding of `generate_pbn.py` and `generate_lesson.py`
(Precision 1C Auctions PBN generator and lesson derivation), with proofs
of the specification's testable properties.

Strings are modelled as `List Char` (with `String` wrappers); Python's
index-based scanning loops become structural or fuel-based recursions.
-/

namespace Bridge

/-! ## Python string primitives -/

/-- Python `str.isspace`-style whitespace set used by `str.strip()` /
`str.split()` (ASCII fragment; the repository's data is ASCII). -/
def pySpace (c : Char) : Bool :=
  c = ' ' || c = '\t' || c = '\n' || c = '\x0d' || c = '\x0b' || c = '\x0c'

/-- Regex word character `\w` (ASCII fragment). -/
def wordChar (c : Char) : Bool :=
  c.isAlphanum || c = '_'

/-- Python `str.strip()` on a character list. -/
def pyStrip (l : List Char) : List Char :=
  ((l.dropWhile pySpace).reverse.dropWhile pySpace).reverse

/-- Worker for `pySplitWs`: `cur` is the reversed word being accumulated. -/
def pySplitWsAux : List Char → List Char → List (List Char)
  | cur, [] => if cur.isEmpty then [] else [cur.reverse]
  | cur, c :: rest =>
    if pySpace c then
      if cur.isEmpty then pySplitWsAux [] rest
      else cur.reverse :: pySplitWsAux [] rest
    else pySplitWsAux (c :: cur) rest

/-- Python `str.split()` with no argument: split on whitespace runs,
dropping empty pieces. -/
def pySplitWs (l : List Char) : List (List Char) := pySplitWsAux [] l

/-- Python `str.split(sep)` for a single-character separator. -/
def pySplitOn (sep : Char) : List Char → List (List Char)
  | [] => [[]]
  | c :: rest =>
    if c = sep then [] :: pySplitOn sep rest
    else
      match pySplitOn sep rest with
      | [] => [[c]]
      | w :: ws => (c :: w) :: ws

/-- Python `str.lower()` (ASCII). -/
def pyLower (l : List Char) : List Char := l.map Char.toLower

/-- Python `str.upper()` (ASCII). -/
def pyUpper (l : List Char) : List Char := l.map Char.toUpper

/-- Python `sep.join(parts)`. -/
def joinStr (sep : String) : List String → String
  | [] => ""
  | [x] => x
  | x :: y :: rest => x ++ sep ++ joinStr sep (y :: rest)

/-- `pat` is a prefix of `l`. -/
def startsWithL (pat l : List Char) : Bool := l.take pat.length = pat

/-- Python `pat in l` substring test. -/
def hasInfix (pat : List Char) : List Char → Bool
  | [] => pat.isEmpty
  | c :: rest => startsWithL pat (c :: rest) || hasInfix pat rest

/-! ## `generate_pbn.expand_auction` -/

/-- `raw_auction.replace(' – ', ' - ')`: normalize the en-dash separator
variant to the plain hyphen form (left-to-right, non-overlapping). -/
def replaceEnDash : List Char → List Char
  | ' ' :: '–' :: ' ' :: rest => ' ' :: '-' :: ' ' :: replaceEnDash rest
  | c :: rest => c :: replaceEnDash rest
  | [] => []

/-- The element-splitting loop of `expand_auction`: split on `' - '` but
not inside parentheses (`paren_depth` may go negative, hence `Int`).
`cur` is the element accumulated so far. -/
def splitSep : List Char → Int → List Char → List (List Char)
  | [], _, cur => if cur.isEmpty then [] else [cur]
  | '(' :: rest, d, cur => splitSep rest (d + 1) (cur ++ ['('])
  | ')' :: rest, d, cur => splitSep rest (d - 1) (cur ++ [')'])
  | ' ' :: '-' :: ' ' :: rest, d, cur =>
    if d = 0 then cur :: splitSep rest d []
    else splitSep ('-' :: ' ' :: rest) d (cur ++ [' '])
  | c :: rest, d, cur => splitSep rest d (cur ++ [c])

/-- The element list `expand_auction` iterates over. -/
def auctionElements (raw : List Char) : List (List Char) :=
  splitSep (replaceEnDash raw) 0 []

/-- Provenance of an output token of `expand_auction` (instrumentation used
to state the no-adjacent-own-side-calls invariant; `expand_auction` itself
is the projection that forgets this tag). -/
inductive Origin where
  | ownElem   -- a non-bracketed element, emitted as-is
  | oppElem   -- a bracketed element, brackets removed
  | allPassP  -- one of the three passes emitted for "all pass"
  | insPass   -- the Pass inserted between two own-side elements
  | padPass   -- a Pass appended by the final ensure-three-passes loop
deriving DecidableEq, Repr

/-- The main element loop of `expand_auction`, instrumented with origins.
`i` is the `enumerate` index (counting skipped empty elements) and `prev`
is `prev_was_bracketed`. -/
def processElems : List (List Char) → Nat → Bool → List (Origin × List Char)
  | [], _, _ => []
  | e :: es, i, prev =>
    let el := pyStrip e
    if el.isEmpty then processElems es (i + 1) prev
    else if pyLower el = "all pass".data then
      (.allPassP, "Pass".data) :: (.allPassP, "Pass".data) ::
        (.allPassP, "Pass".data) :: processElems es (i + 1) false
    else if el.head? = some '[' && el.contains ']' then
      (.oppElem, el.filter (fun c => !(c = '[' || c = ']'))) ::
        processElems es (i + 1) true
    else
      (if i > 0 && !prev then [(.insPass, "Pass".data)] else []) ++
        (.ownElem, el) :: processElems es (i + 1) false

/-- The `P`-normalization pass: `P -> Pass`, `P ...`/`P(...` get their
head replaced by `Pass`. -/
def normP (tok : List Char) : List Char :=
  if tok = ['P'] then "Pass".data
  else
    match tok with
    | 'P' :: c :: rest =>
      if c = ' ' || c = '(' then "Pass".data ++ c :: rest
      else tok
    | _ => tok

/-- `is_pass` from `expand_auction`: the part before the first `(`,
stripped, equals `Pass`. -/
def isPassTok (tok : List Char) : Bool :=
  pyStrip (tok.takeWhile (fun c => c ≠ '(')) = "Pass".data

/-- Condition of the final `while` loop of `expand_auction`: fewer than
three tokens, or one of the last three is not a pass. -/
def needPad (out : List (Origin × List Char)) : Bool :=
  out.length < 3 || !((out.drop (out.length - 3)).all fun t => isPassTok t.2)

/-- The final ensure-three-passes loop.  Three iterations always suffice:
after three appended `Pass` tokens the last three tokens are literal
passes, so the fuel of 3 makes this equal to the unbounded `while`. -/
def padPasses : Nat → List (Origin × List Char) → List (Origin × List Char)
  | 0, out => out
  | fuel + 1, out =>
    if needPad out then padPasses fuel (out ++ [(.padPass, "Pass".data)])
    else out

/-- The instrumented token sequence produced by `expand_auction`. -/
def expandTagged (raw : String) : List (Origin × List Char) :=
  padPasses 3
    ((processElems (auctionElements raw.data) 0 false).map
      fun t => (t.1, normP t.2))

/-- The output tokens of `expand_auction` (origins forgotten). -/
def expandTokens (raw : String) : List String :=
  (expandTagged raw).map fun t => String.mk t.2

/-- `expand_auction`: expand a raw auction string into a full auction. -/
def expand_auction (raw : String) : String :=
  joinStr " " (expandTokens raw)

/-! ## `generate_pbn.extract_bid_notes` -/

/-- The inner matching-paren scan of `extract_bid_notes`: given the text
after an opening `(` and the current depth (≥ 1), return the consumed
characters (up to and including the closing paren, or the whole rest if
unbalanced) and the remaining text.  The Python note text is
`consumed.dropLast` (`auction[i+1:j-1]`). -/
def matchParen : List Char → Nat → List Char × List Char
  | [], _ => ([], [])
  | c :: rest, d =>
    let d' := if c = '(' then d + 1 else if c = ')' then d - 1 else d
    if d' = 0 then ([c], rest)
    else
      let p := matchParen rest d'
      (c :: p.1, p.2)

/-- Python `str.rstrip()`. -/
def pyRstrip (l : List Char) : List Char :=
  (l.reverse.dropWhile pySpace).reverse

/-- Decimal digits of a natural number (Python `str(n)` / f-string). -/
def natChars (n : Nat) : List Char := (Nat.repr n).data

/-- The scanning loop of `extract_bid_notes`, fuel-based (each step
consumes at least one input character, so fuel `length + 1` suffices).
Accumulates the rewritten text `res` and the `N:text` notes in order. -/
def extractLoop : Nat → List Char → List Char → List (List Char) → Nat →
    List Char × List (List Char)
  | 0, rest, res, notes, _ => (res ++ rest, notes)
  | _ + 1, [], res, notes, _ => (res, notes)
  | fuel + 1, '(' :: rest, res, notes, n =>
    let p := matchParen rest 1
    extractLoop fuel p.2
      (pyRstrip res ++ (' ' :: '=' :: natChars (n + 1)) ++ ['='])
      (notes ++ [natChars (n + 1) ++ ':' :: p.1.dropLast]) (n + 1)
  | fuel + 1, c :: rest, res, notes, n =>
    extractLoop fuel rest (res ++ [c]) notes n

/-- The repeated `'  ' -> ' '` replacement of `extract_bid_notes`:
iterating Python's replace until no double space remains collapses every
run of spaces to a single space. -/
def collapseSpaces : List Char → List Char
  | ' ' :: ' ' :: rest => collapseSpaces (' ' :: rest)
  | c :: rest => c :: collapseSpaces rest
  | [] => []

/-- The note strings (`"N:text"`) collected by `extract_bid_notes`. -/
def extractNotesList (auction : String) : List String :=
  ((extractLoop (auction.data.length + 1) auction.data [] [] 0).2).map
    String.mk

/-- `extract_bid_notes`: returns `(cleaned_auction, bid_notes_str)`. -/
def extract_bid_notes (auction : String) : String × String :=
  let p := extractLoop (auction.data.length + 1) auction.data [] [] 0
  (String.mk (pyStrip (collapseSpaces p.1)),
   joinStr "|" (p.2.map String.mk))

/-- Balanced-parenthesis check by depth counting: the depth never
reaches zero just before a close paren is consumed, and ends at zero.
`balAux l d` scans `l` starting from depth `d`. -/
def balAux : List Char → Nat → Bool
  | [], d => d == 0
  | c :: rest, d =>
    if c = '(' then balAux rest (d + 1)
    else if c = ')' then decide (0 < d) && balAux rest (d - 1)
    else balAux rest d

/-- A character list whose parentheses are balanced. -/
def balanced (l : List Char) : Bool := balAux l 0

/-- A balanced auction string presented by its top-level structure: a
paren-free leading segment `s0`, then for each top-level `(...)` group
its interior (itself balanced; nested parens allowed) paired with the
paren-free segment that follows the group. -/
def assembleAuction (s0 : List Char) (gs : List (List Char × List Char)) : List Char :=
  s0 ++ (gs.map fun p => '(' :: p.1 ++ ')' :: p.2).flatten

/-- Spec-side footnote list: the interior of the i-th top-level group
(1-indexed, counting from `n = 0`) becomes the note string `"N:text"`
with `N = n + i`. -/
def specNotes : Nat → List (List Char × List Char) → List (List Char)
  | _, [] => []
  | n, (g, _) :: gs => (natChars (n + 1) ++ ':' :: g) :: specNotes (n + 1) gs

/-- Spec-side rewritten auction text (before space collapsing and final
strip): each top-level `(...)` span, together with any whitespace
immediately preceding it, is replaced by the marker `" =N="`; all text
outside the top-level groups is kept verbatim. -/
def specRes : List Char → Nat → List Char → List (List Char × List Char) → List Char
  | res, _, s0, [] => res ++ s0
  | res, n, s0, (_, s) :: gs =>
    specRes (pyRstrip (res ++ s0) ++ (' ' :: '=' :: natChars (n + 1)) ++ ['=']) (n + 1) s gs

/-- Fuel consumed by `extractLoop` on the structured input: one unit
per segment character plus one unit per top-level group. -/
def segsFuel : List (List Char × List Char) → Nat
  | [] => 0
  | (_, s) :: gs => 1 + s.length + segsFuel gs

/-! ## `generate_pbn.add_suit_symbols`

Each Python `re.sub` is embedded as a left-to-right scanner.  The
patterns contain no alternation and their greedy pieces cannot
backtrack successfully (each greedy class excludes the character that
must follow), so the scanners are exact. -/

/-- A suit letter `[CDHS]`. -/
def suitChar (c : Char) : Bool :=
  c = 'C' || c = 'D' || c = 'H' || c = 'S'

/-- A rank letter `[KQAJT]`. -/
def rankChar (c : Char) : Bool :=
  c = 'K' || c = 'Q' || c = 'A' || c = 'J' || c = 'T'

/-- `\b` to the right of a just-matched word character: the rest of the
input starts with a non-word character or is empty. -/
def wbAfter : List Char → Bool
  | [] => true
  | c :: _ => !wordChar c

/-- Rule (a) `(\d[\d+-]*) ([CDHS])\b -> \1\\\2s`: range token, space,
suit letter.  Fuel-based; each step consumes at least one character. -/
def ruleRange : Nat → List Char → List Char
  | 0, s => s
  | _ + 1, [] => []
  | fuel + 1, c :: rest =>
    if c.isDigit then
      let run := rest.takeWhile fun x => x.isDigit || x = '+' || x = '-'
      match rest.drop run.length with
      | ' ' :: su :: tail =>
        if suitChar su && wbAfter tail then
          (c :: run) ++ '\\' :: su :: 's' :: ruleRange fuel tail
        else c :: ruleRange fuel rest
      | _ => c :: ruleRange fuel rest
    else c :: ruleRange fuel rest

/-- Rule (b) `([KQAJT])([CDHS])\b -> \1\\\2`: rank then suit letter. -/
def ruleRank : List Char → List Char
  | c :: su :: tail =>
    if rankChar c && suitChar su && wbAfter tail then
      c :: '\\' :: su :: ruleRank tail
    else c :: ruleRank (su :: tail)
  | [c] => [c]
  | [] => []

/-- Rule (c) `(\d)([CDHS])\b -> \1\\\2`: digit then suit letter. -/
def ruleBid : List Char → List Char
  | c :: su :: tail =>
    if c.isDigit && suitChar su && wbAfter tail then
      c :: '\\' :: su :: ruleBid tail
    else c :: ruleBid (su :: tail)
  | [c] => [c]
  | [] => []

/-- Rule (d) `\b([CDHS]) (keycard) -> \\\1 \2`.  `prev` is the character
before the scan position (`none` at the start of the string); the
leading `\b` holds when it is absent or a non-word character. -/
def ruleKeycard (prev : Option Char) : List Char → List Char
  | su :: ' ' :: 'k' :: 'e' :: 'y' :: 'c' :: 'a' :: 'r' :: 'd' :: rest =>
    if suitChar su && (match prev with | none => true | some p => !wordChar p) then
      '\\' :: su :: ' ' :: 'k' :: 'e' :: 'y' :: 'c' :: 'a' :: 'r' :: 'd' ::
        ruleKeycard (some 'd') rest
    else su :: ruleKeycard (some su) (' ' :: 'k' :: 'e' :: 'y' :: 'c' :: 'a' :: 'r' :: 'd' :: rest)
  | c :: rest => c :: ruleKeycard (some c) rest
  | [] => []

/-- Rule (e) `(for )([CDHS])\b -> \1\\\2`. -/
def ruleFor : List Char → List Char
  | 'f' :: 'o' :: 'r' :: ' ' :: su :: rest =>
    if suitChar su && wbAfter rest then
      'f' :: 'o' :: 'r' :: ' ' :: '\\' :: su :: ruleFor rest
    else 'f' :: ruleFor ('o' :: 'r' :: ' ' :: su :: rest)
  | c :: rest => c :: ruleFor rest
  | [] => []

/-- `add_suit_symbols`: the five substitutions in source order. -/
def add_suit_symbols (text : String) : String :=
  String.mk (ruleFor (ruleKeycard none (ruleBid (ruleRank
    (ruleRange (text.data.length + 1) text.data)))))

/-! ## `generate_pbn.format_auction_lines` and the Stage-4 board writer -/

/-- A token is a footnote flag when it starts and ends with `=`
(Python `startswith('=') and endswith('=')`; true of the one-character
token `"="` as well, matching the source). -/
def isFlagTok (t : List Char) : Bool :=
  t.head? = some '=' && t.getLast? = some '='

/-- Group auction tokens into bids: a token grabs an immediately
following footnote flag. -/
def groupBids : List (List Char) → List (List Char)
  | [] => []
  | t :: f :: rest =>
    if isFlagTok f then (t ++ ' ' :: f) :: groupBids rest
    else t :: groupBids (f :: rest)
  | [t] => [t]

/-- Chunk a list into runs of four (one auction round per output line). -/
def chunk4 : List (List Char) → List (List (List Char))
  | [] => []
  | a :: b :: c :: d :: rest => [a, b, c, d] :: chunk4 rest
  | l => [l]

/-- `format_auction_lines`, as the list of output lines (the Python
function returns them `'\n'`-joined; the file writer re-splits them). -/
def format_auction_lines_list (auction : String) : List String :=
  (chunk4 (groupBids (pySplitWs auction.data))).map
    fun bids => joinStr " " (bids.map String.mk)

/-- One `[Tag "value"]` line as written by `stage4`. -/
def tagLine (tag value : String) : String :=
  "[" ++ tag ++ " \"" ++ value ++ "\"]"

/-- The lines `stage4` writes for one resolved Stage-3 record, given the
tag values copied from the reference board (`event`, `site`, `date`,
`dealer`, `vuln`, `deal`) and the record fields (`deal_id`, `auction`,
`bid_notes`, `notes`).  The auction body is written as
`format_auction_lines(...) + '\n'`, i.e. a single empty line when there
are no bids. -/
def stage4BoardLines (event site date dealer vuln deal deal_id auction
    bid_notes notes : String) : List String :=
  [tagLine "Event" event, tagLine "Site" site, tagLine "Date" date,
   tagLine "Board" deal_id, tagLine "West" "", tagLine "North" "",
   tagLine "East" "", tagLine "South" "", tagLine "Dealer" dealer,
   tagLine "Vulnerable" vuln, tagLine "Deal" deal, tagLine "Scoring" "",
   tagLine "Declarer" "", tagLine "Contract" "", tagLine "Result" "",
   tagLine "Auction" dealer] ++
  (match format_auction_lines_list auction with
   | [] => [""]
   | ls => ls) ++
  (if bid_notes ≠ "" then
     (pySplitOn '|' bid_notes.data).map fun e => tagLine "Note" (String.mk e)
   else []) ++
  (if notes ≠ "" then ["\x7b " ++ notes ++ " \x7d"] else []) ++
  [""]

/-- The header lines `stage4` writes before the first board. -/
def stage4Header : List String :=
  ["% PBN 2.1", "% EXPORT", "%Content-type: text/x-pbn; charset=ISO-8859-1", ""]

/-! ## `generate_lesson.parse_boards` -/

/-- The board record built by `parse_boards`.  `notes` is the Python
dict `int -> text` in insertion order. -/
structure PBoard where
  meta_tags : List (String × String)
  auction_dealer : String
  auction_lines : List String
  notes : List (Nat × String)
  note_lines : List String
  commentary : String
deriving DecidableEq, Repr

/-- A fresh board as created on an `Event` tag. -/
def freshBoard : PBoard :=
  { meta_tags := [], auction_dealer := "N", auction_lines := [],
    notes := [], note_lines := [], commentary := "" }

/-- Python dict assignment `d[k] = v` preserving insertion order. -/
def updAssoc : List (Nat × String) → Nat → String → List (Nat × String)
  | [], k, v => [(k, v)]
  | (a, b) :: rest, k, v =>
    if a = k then (a, v) :: rest else (a, b) :: updAssoc rest k v

/-- Last index `i` in the list with `l[i] = '"'` and `l[i+1] = ']'`
(the cut point chosen by the greedy `(.*)` of the tag regex). -/
def lastQuoteBracket : List Char → Nat → Option Nat → Option Nat
  | '"' :: ']' :: rest, i, _ => lastQuoteBracket (']' :: rest) (i + 1) (some i)
  | _ :: rest, i, best => lastQuoteBracket rest (i + 1) best
  | [], _, best => best

/-- The tag regex `re.match(r'\[(\w+)\s+"(.*)"\]', stripped)`: a prefix
match; `\w+` and `\s+` are greedy runs (their classes exclude the
required following character, so no backtracking), and the greedy `(.*)`
ends at the last `"]` in the line. -/
def parseTagLine (l : List Char) : Option (String × String) :=
  match l with
  | '[' :: rest =>
    let nm := rest.takeWhile wordChar
    if nm.isEmpty then none
    else
      let r2 := rest.drop nm.length
      let ws := r2.takeWhile pySpace
      if ws.isEmpty then none
      else
        match r2.drop ws.length with
        | '"' :: r3 =>
          match lastQuoteBracket r3 0 none with
          | some k => some (String.mk nm, String.mk (r3.take k))
          | none => none
        | _ => none
  | _ => none

/-- Python `int()` on a string of decimal digits. -/
def pyInt (ds : List Char) : Nat :=
  ds.foldl (fun a c => a * 10 + (c.toNat - 48)) 0

/-- The note-value regex `re.match(r'(\d+):(.+)', value)`. -/
def parseNoteValue (v : List Char) : Option (Nat × String) :=
  let ds := v.takeWhile Char.isDigit
  if ds.isEmpty then none
  else
    match v.drop ds.length with
    | ':' :: rest =>
      if rest.isEmpty then none
      else some (pyInt ds, String.mk rest)
    | _ => none

/-- Parser state of the `parse_boards` line loop. -/
structure PState where
  boards : List PBoard
  current : Option PBoard
  in_auction : Bool
  in_commentary : Bool
  commentary_text : String
deriving DecidableEq, Repr

/-- Flush the current board into `boards` (the `Event` / end-of-input
logic, including the pending commentary text). -/
def flushBoard (st : PState) : List PBoard :=
  match st.current with
  | none => st.boards
  | some c =>
    st.boards ++ [if st.commentary_text ≠ "" then
      { c with commentary := String.mk (pyStrip st.commentary_text.data) }
    else c]

/-- The tag-line branch of the `parse_boards` loop body (`stripped`
matched the tag regex as `[tag "value"]`). -/
def parseStepTag (st : PState) (stripped : String) (tag value : String) :
    Option PState :=
  let st :=
    if tag = "Event" then
      { boards := flushBoard st, current := some freshBoard,
        in_auction := false, in_commentary := false,
        commentary_text :=
          if st.current.isSome && st.commentary_text ≠ "" then ""
          else st.commentary_text }
    else st
  if tag = "Auction" then
    match st.current with
    | none => none
    | some c => some { st with
        current := some { c with auction_dealer := value },
        in_auction := true }
  else if tag = "Note" then
    match st.current with
    | none => none
    | some c => some { st with
        in_auction := false,
        current := some { c with
          note_lines := c.note_lines ++ [stripped],
          notes := match parseNoteValue value.data with
            | some (n, t) => updAssoc c.notes n t
            | none => c.notes } }
  else
    match st.current with
    | none => none
    | some c => some { st with
        current := some { c with meta_tags := c.meta_tags ++ [(tag, value)] } }

/-- The non-tag branch of the `parse_boards` loop body. -/
def parseStepPlain (st : PState) (stripped : String) : Option PState :=
  if stripped.data.head? = some '{' then
    some { st with
      in_auction := false
      in_commentary := !stripped.data.tail.contains '}'
      commentary_text := st.commentary_text ++ stripped ++ "\n" }
  else if st.in_commentary then
    some { st with
      commentary_text := st.commentary_text ++ stripped ++ "\n"
      in_commentary := !stripped.data.contains '}' }
  else if st.in_auction && !stripped.isEmpty then
    match st.current with
    | none => none
    | some c => some { st with
        current := some { c with auction_lines := c.auction_lines ++ [stripped] } }
  else some st

/-- One iteration of the `parse_boards` loop.  `none` models the Python
`TypeError` when a non-`Event` tag arrives with no current board. -/
def parseStep (st : PState) (line : String) : Option PState :=
  let stripped := String.mk (pyStrip line.data)
  if stripped.data.head? = some '%' then some st
  else
    match parseTagLine stripped.data with
    | some (tag, value) => parseStepTag st stripped tag value
    | none => parseStepPlain st stripped

/-- Fold `parseStep` over the input lines, propagating the crash. -/
def parseFold : List String → PState → Option PState
  | [], st => some st
  | l :: ls, st =>
    match parseStep st l with
    | none => none
    | some st2 => parseFold ls st2

/-- `parse_boards` on a document given as its list of lines
(`content.split('\n')`). -/
def parse_boards (lines : List String) : Option (List PBoard) :=
  (parseFold lines
    { boards := [], current := none, in_auction := false,
      in_commentary := false, commentary_text := "" }).map flushBoard

/-! ## `generate_lesson` seat rotation and commentary -/

/-- `ROTATE_MAP` lookup; `none` models the Python `KeyError`. -/
def rotate_seat (seat : String) : Option String :=
  if seat = "N" then some "S"
  else if seat = "S" then some "N"
  else if seat = "E" then some "W"
  else if seat = "W" then some "E"
  else none

/-- `rotate_deal_tag`: rotate the first character, keep the rest;
`none` models the `IndexError`/`KeyError` cases. -/
def rotate_deal_tag (deal_value : String) : Option String :=
  match deal_value.data with
  | [] => none
  | c :: rest =>
    (rotate_seat (String.mk [c])).map fun r => r ++ String.mk rest

/-- Python `str.rstrip('?')`. -/
def rstripQ (l : List Char) : List Char :=
  (l.reverse.dropWhile (fun c => c = '?')).reverse

/-- `format_bid_display`: display form of a bid. -/
def format_bid_display (bid : String) : String :=
  let b := rstripQ bid.data
  if pyUpper b = "PASS".data || pyUpper b = ['P'] then "pass"
  else
    match b with
    | [d, su] =>
      if d.isDigit && suitChar su then String.mk [d, '\\', su]
      else String.mk b
    | _ => String.mk b

/-- `format_meaning`: phrase derived from a footnote text. -/
def format_meaning (meaning : String) : String :=
  if meaning = "" then ""
  else if meaning = "waiting" then " waiting"
  else if meaning = "cue" || meaning = "cue bid" then " showing a control"
  else if meaning.data.take 7 = "to play".data then " " ++ meaning
  else if meaning.data.getLast? = some '?' then " asking " ++ meaning
  else if meaning = "sets trump" || meaning = "set trump" then ", setting trump"
  else if meaning = "sets suit" || meaning = "set suit" then ", setting the suit"
  else if meaning = "start cuebidding" then ", starting cuebidding"
  else if meaning = "forced" then ", forced"
  else if meaning = "relay" then ", a relay"
  else if hasInfix "keycard".data meaning.data &&
      !hasInfix "keycards".data meaning.data then " asking " ++ meaning
  else if meaning.data.take 3 = "ask".data then ", asking" ++ String.mk (meaning.data.drop 3)
  else " showing " ++ meaning

/-- Python `notes.get(note_num, '') if note_num else ''`. -/
def noteMeaning (notes : List (Nat × String)) : Option Nat → String
  | none => ""
  | some n =>
    match notes.find? (fun p => p.1 = n) with
    | some p => p.2
    | none => ""

/-- The narration lines one `(seat, bid, note_num)` triple contributes in
`generate_south_commentary` (the loop only appends, so the whole body is
the concatenation of these). -/
def seatTurnLines (notes : List (Nat × String)) :
    String × String × Option Nat → List String
  | (seat, bid, note_num) =>
    let meaning := noteMeaning notes note_num
    let display := format_bid_display bid
    if seat = "N" then
      [(if pyUpper bid.data = "PASS".data then "North passes"
        else if bid = "X" then "North doubles"
        else if bid = "XX" then "North redoubles"
        else "North bids " ++ display) ++ format_meaning meaning ++ "."]
    else if seat = "S" then
      ["What will you bid now? [BID " ++ display ++ "]",
       (if pyUpper bid.data = "PASS".data then "You pass"
        else if bid = "X" then "You double"
        else if bid = "XX" then "You redouble"
        else "You bid " ++ display) ++ format_meaning meaning ++ ".", ""]
    else if seat = "E" || seat = "W" then
      let name := if seat = "E" then "East" else "West"
      if pyUpper bid.data ≠ "PASS".data then
        if bid = "X" then [name ++ " doubles."]
        else if bid = "XX" then [name ++ " redoubles."]
        else [name ++ " bids " ++ display ++ "."]
      else []
    else []

/-- The full narration body of `generate_south_commentary`. -/
def southCommentaryLines (bids : List (String × String × Option Nat))
    (notes : List (Nat × String)) : List String :=
  bids.flatMap (seatTurnLines notes)

/-! ## Auxiliary predicates used in the statements -/

/-- The separator `' - '` occurs somewhere in the text (at any paren
depth). -/
def hasSep : List Char → Bool
  | ' ' :: '-' :: ' ' :: _ => true
  | _ :: rest => hasSep rest
  | [] => false

/-- A token list ends with exactly three consecutive passes: the last
three tokens are passes (annotations ignored) and the fourth-from-last
token, when present, is not. -/
def endsExactlyThreePasses (toks : List String) : Bool :=
  let r := toks.reverse
  decide (3 ≤ toks.length) && (r.take 3).all (fun t => isPassTok t.data) &&
    (match r.drop 3 with
     | [] => true
     | x :: _ => !isPassTok x.data)

/-- The string is empty or consists of whitespace only. -/
def isWsOnly (s : String) : Bool := s.data.all pySpace

/-- The relation "these two adjacent output tokens are both own-side
(non-bracketed-origin) calls" must never hold; `noAdjacentOwn` says every
adjacent pair of the instrumented output avoids it. -/
def noAdjacentOwn (out : List (Origin × List Char)) : Prop :=
  List.Chain' (fun a b => ¬(a.1 = Origin.ownElem ∧ b.1 = Origin.ownElem)) out

/-! ## Supporting lemmas -/

theorem padPasses_step (f : Nat) (out : List (Origin × List Char)) :
    padPasses (f + 1) out =
      if needPad out then padPasses f (out ++ [(Origin.padPass, "Pass".data)])
      else out := rfl

theorem needPad_padPasses3 (l : List (Origin × List Char)) :
    needPad (padPasses 3 l) = false := by
  have p3 : (3 : Nat) = 2 + 1 := rfl
  have p2 : (2 : Nat) = 1 + 1 := rfl
  have p1 : (1 : Nat) = 0 + 1 := rfl
  rw [p3, padPasses_step]
  by_cases h1 : needPad l
  · rw [if_pos h1, p2, padPasses_step]
    by_cases h2 : needPad (l ++ [(Origin.padPass, "Pass".data)])
    · rw [if_pos h2, p1, padPasses_step]
      by_cases h3 : needPad (l ++ [(Origin.padPass, "Pass".data)] ++ [(Origin.padPass, "Pass".data)])
      · rw [if_pos h3]
        rw [show ∀ out : List (Origin × List Char), padPasses 0 out = out from fun _ => rfl]
        have heq : l ++ [(Origin.padPass, "Pass".data)] ++ [(Origin.padPass, "Pass".data)] ++ [(Origin.padPass, "Pass".data)] = l ++ [(Origin.padPass, "Pass".data), (Origin.padPass, "Pass".data), (Origin.padPass, "Pass".data)] := by simp
        rw [heq]
        have hlen : (l ++ [(Origin.padPass, "Pass".data), (Origin.padPass, "Pass".data), (Origin.padPass, "Pass".data)]).length = l.length + 3 := by simp
        have h4 : l.length + 3 - 3 = l.length := by omega
        have hall : List.all [(Origin.padPass, "Pass".data), (Origin.padPass, "Pass".data), (Origin.padPass, "Pass".data)] (fun t => isPassTok t.2) = true := by decide
        simp only [needPad, hlen, h4, List.drop_left, hall]
        simp only [Bool.not_true, Bool.or_false, decide_eq_false_iff_not]
        omega
      · rw [if_neg h3]
        simpa using h3
    · rw [if_neg h2]
      simpa using h2
  · rw [if_neg h1]
    simpa using h1

theorem length_ge_three_of_not_needPad {l : List (Origin × List Char)}
    (h : needPad l = false) : 3 ≤ l.length := by
  simp only [needPad, Bool.or_eq_false_iff, decide_eq_false_iff_not, Nat.not_lt] at h
  exact h.1

theorem last3_pass_of_not_needPad {l : List (Origin × List Char)}
    (h : needPad l = false) :
    (l.drop (l.length - 3)).all (fun t => isPassTok t.2) = true := by
  simp only [needPad, Bool.or_eq_false_iff, Bool.not_eq_false'] at h
  exact h.2

theorem replaceEnDash_of_not_mem {l : List Char} (h : '–' ∉ l) :
    replaceEnDash l = l := by
  induction l using replaceEnDash.induct with
  | case1 rest ih => simp at h
  | case2 c rest hne ih =>
    rw [replaceEnDash.eq_2 c rest hne,
      ih (fun hc => h (List.mem_cons_of_mem _ hc))]
  | case3 => rfl

theorem splitSep_of_no_sep : ∀ (l : List Char) (d : Int) (cur : List Char),
    hasSep l = false →
    splitSep l d cur = if (cur ++ l).isEmpty then [] else [cur ++ l] := by
  intro l d cur
  induction l, d, cur using splitSep.induct with
  | case1 x cur hc => intro h; simp [splitSep, hc]
  | case2 x cur hc => intro h; simp [splitSep, hc]
  | case3 rest d cur ih =>
    intro h
    rw [show hasSep ('(' :: rest) = hasSep rest from
      hasSep.eq_2 _ _ (by intro t h1 h2; simp at h1)] at h
    rw [splitSep, ih h]
    simp
  | case4 rest d cur ih =>
    intro h
    rw [show hasSep (')' :: rest) = hasSep rest from
      hasSep.eq_2 _ _ (by intro t h1 h2; simp at h1)] at h
    rw [splitSep, ih h]
    simp
  | case5 rest cur ih =>
    intro h
    rw [show hasSep (' ' :: '-' :: ' ' :: rest) = true from hasSep.eq_1 rest] at h
    exact absurd h (by simp)
  | case6 rest d cur hd ih =>
    intro h
    rw [show hasSep (' ' :: '-' :: ' ' :: rest) = true from hasSep.eq_1 rest] at h
    exact absurd h (by simp)
  | case7 c rest d cur h1 h2 h3 ih =>
    intro h
    rw [hasSep.eq_2 _ _ h3] at h
    rw [splitSep.eq_5 d cur c rest h1 h2 h3, ih h]
    simp

theorem hasSep_of_no_dash : ∀ {l : List Char}, '-' ∉ l → hasSep l = false := by
  intro l
  induction l using hasSep.induct with
  | case1 tail => intro h; exact absurd (by simp) h
  | case2 c rest hne ih =>
    intro h
    rw [hasSep.eq_2 c rest hne]
    exact ih (fun hm => h (List.mem_cons_of_mem _ hm))
  | case3 => intro _; rfl

theorem pyStrip_of_all_space {l : List Char} (h : l.all pySpace = true) :
    pyStrip l = [] := by
  unfold pyStrip
  have h1 : l.dropWhile pySpace = [] := by
    rw [List.dropWhile_eq_nil_iff]
    intro x hx
    exact List.all_eq_true.mp h x hx
  rw [h1]
  rfl

theorem processElems_chain : ∀ (es : List (List Char)) (i : Nat) (prev : Bool),
    List.Chain' (fun a b => ¬(a.1 = Origin.ownElem ∧ b.1 = Origin.ownElem))
      (processElems es i prev) ∧
    (1 ≤ i → prev = false →
      ∀ x ∈ (processElems es i prev).head?, x.1 ≠ Origin.ownElem) := by
  intro es
  induction es with
  | nil => intro i prev; simp [processElems]
  | cons e es ih =>
    intro i prev
    rw [processElems.eq_2]
    by_cases hempty : (pyStrip e).isEmpty = true
    · rw [if_pos hempty]
      exact ⟨(ih (i+1) prev).1, fun _ hp => (ih (i+1) prev).2 (by omega) hp⟩
    · rw [if_neg hempty]
      by_cases hap : pyLower (pyStrip e) = "all pass".data
      · rw [if_pos hap]
        constructor
        · rw [List.chain'_cons, List.chain'_cons, List.chain'_cons']
          refine ⟨by simp, by simp, ?_, (ih (i+1) false).1⟩
          rintro b hb ⟨h1, h2⟩
          simp at h1
        · intro _ _ x hx
          simp at hx
          rw [← hx]
          simp
      · rw [if_neg hap]
        by_cases hbr : (decide ((pyStrip e).head? = some '[') && (pyStrip e).contains ']') = true
        · rw [if_pos hbr]
          constructor
          · rw [List.chain'_cons']
            refine ⟨?_, (ih (i+1) true).1⟩
            rintro b hb ⟨h1, h2⟩
            simp at h1
          · intro _ _ x hx
            simp at hx
            rw [← hx]
            simp
        · rw [if_neg hbr]
          by_cases hins : (decide (i > 0) && !prev) = true
          · rw [if_pos hins]
            constructor
            · show List.Chain' _ ((Origin.insPass, "Pass".data) :: (Origin.ownElem, pyStrip e) :: _)
              rw [List.chain'_cons, List.chain'_cons']
              refine ⟨by simp, ?_, (ih (i+1) false).1⟩
              rintro b hb ⟨h1, h2⟩
              exact (ih (i+1) false).2 (by omega) rfl b hb h2
            · intro _ _ x hx
              simp at hx
              rw [← hx]
              simp
          · rw [if_neg hins]
            constructor
            · show List.Chain' _ ((Origin.ownElem, pyStrip e) :: _)
              rw [List.chain'_cons']
              refine ⟨?_, (ih (i+1) false).1⟩
              rintro b hb ⟨h1, h2⟩
              exact (ih (i+1) false).2 (by omega) rfl b hb h2
            · intro h1 h2
              exfalso
              apply hins
              simp [h2]
              omega

theorem padPasses_chain (n : Nat) :
    ∀ l : List (Origin × List Char),
    List.Chain' (fun a b => ¬(a.1 = Origin.ownElem ∧ b.1 = Origin.ownElem)) l →
    List.Chain' (fun a b => ¬(a.1 = Origin.ownElem ∧ b.1 = Origin.ownElem))
      (padPasses n l) := by
  induction n with
  | zero => intro l h; exact h
  | succ n ih =>
    intro l h
    rw [padPasses_step]
    by_cases hp : needPad l
    · rw [if_pos hp]
      apply ih
      apply List.Chain'.append h (List.chain'_singleton _)
      rintro x hx y hy ⟨h1, h2⟩
      simp at hy
      rw [← hy] at h2
      simp at h2
    · rw [if_neg hp]; exact h

theorem expandTagged_no_adjacent_own (raw : String) :
    noAdjacentOwn (expandTagged raw) := by
  unfold noAdjacentOwn expandTagged
  apply padPasses_chain
  rw [List.chain'_map]
  exact (processElems_chain (auctionElements raw.data) 0 false).1

theorem needPad_expandTagged (raw : String) :
    needPad (expandTagged raw) = false :=
  needPad_padPasses3 _

theorem all_map_data {l : List (Origin × List Char)} {p : List Char → Bool}
    (h : (l.all fun t => p t.2) = true) :
    ((l.map fun t => String.mk t.2).all fun t => p t.data) = true := by
  rw [List.all_eq_true] at h ⊢
  intro x hx
  rw [List.mem_map] at hx
  obtain ⟨a, ha, rfl⟩ := hx
  exact h a ha

theorem rotate_deal_tag_cons {c d : Char} (rest : List Char)
    (h : rotate_seat (String.mk [c]) = some (String.mk [d])) :
    rotate_deal_tag (String.mk (c :: rest)) = some (String.mk (d :: rest)) := by
  show (rotate_seat (String.mk [c])).map (fun r => r ++ String.mk rest) = _
  rw [h]
  show some (String.mk [d] ++ String.mk rest) = _
  congr 1

/-! ## The claims -/

/-- **C1, counterexample.**  The claim says every expanded auction ends
with *exactly* three consecutive `Pass` tokens.  The raw auction
`"Pass - Pass - Pass"` expands to five `Pass` tokens (a `Pass` is
inserted between each pair of own-side calls), so the expansion ends
with more than three consecutive passes. -/
theorem C1_counterexample :
    expandTokens "Pass - Pass - Pass" =
      ["Pass", "Pass", "Pass", "Pass", "Pass"] ∧
    endsExactlyThreePasses (expandTokens "Pass - Pass - Pass") = false := by
  constructor
  · decide
  · decide

/-- **C1, amended.**  For every raw auction string the expansion has at
least three tokens, its last three tokens are all passes (ignoring any
parenthetical annotation attached to a token, via `isPassTok`), and the
instrumented output never contains two adjacent own-side
(non-bracketed-origin) calls: a `Pass` is always inserted between them
unless an opponent (bracketed) call intervenes. -/
theorem C1_expansion_tail_at_least_three_passes (raw : String) :
    3 ≤ (expandTokens raw).length ∧
    ((expandTokens raw).drop ((expandTokens raw).length - 3)).all
      (fun t => isPassTok t.data) = true ∧
    noAdjacentOwn (expandTagged raw) := by
  have h := needPad_expandTagged raw
  refine ⟨?_, ?_, expandTagged_no_adjacent_own raw⟩
  · have := length_ge_three_of_not_needPad h
    simpa [expandTokens] using this
  · have h2 := last3_pass_of_not_needPad h
    unfold expandTokens
    rw [List.length_map, ← List.map_drop]
    exact all_map_data h2

/-- **C2, counterexample.**  The claim's expected expansion inserts a
`Pass` after the bracketed `[P]`, but the code does not insert a pass
after an opponent call, and the claimed footnote escaping
`"shows 4+\Ds diamonds"` never happens because `diamonds` is spelled
out (no bare suit letter follows `4+`). -/
theorem C2_counterexample :
    expand_auction "1C - [P] - 1D(shows 4+ diamonds) - all pass" ≠
      "1C Pass Pass 1D(shows 4+ diamonds) Pass Pass Pass" ∧
    add_suit_symbols "shows 4+ diamonds" ≠ "shows 4+\\Ds diamonds" := by
  constructor
  · decide
  · decide

/-- **C2, amended.**  The auction part of raw block 3 expands to
`"1C Pass 1D(shows 4+ diamonds) Pass Pass Pass"` (a single inserted
pass: the opponent's `[P]` already intervenes); footnote extraction on
that result yields `"1C Pass 1D =1= Pass Pass Pass"` with one footnote
`"1:shows 4+ diamonds"`, and suit-symbol escaping leaves the footnote
text unchanged. -/
theorem C2_end_to_end_actual :
    expand_auction "1C - [P] - 1D(shows 4+ diamonds) - all pass" =
      "1C Pass 1D(shows 4+ diamonds) Pass Pass Pass" ∧
    extract_bid_notes "1C Pass 1D(shows 4+ diamonds) Pass Pass Pass" =
      ("1C Pass 1D =1= Pass Pass Pass", "1:shows 4+ diamonds") ∧
    add_suit_symbols "shows 4+ diamonds" = "shows 4+ diamonds" := by
  refine ⟨?_, ?_, ?_⟩
  · decide
  · decide
  · decide

/-- **C3, counterexample.**  Expansion is not idempotent on its own
output: the empty auction expands to `"Pass Pass Pass"`, and re-running
expansion on that string appends three more passes (the space-joined
string contains no ` - ` separator, so the whole string is treated as a
single non-pass element). -/
theorem C3_counterexample :
    expand_auction (expand_auction "") =
      "Pass Pass Pass Pass Pass Pass" ∧
    expand_auction (expand_auction "") ≠ expand_auction "" := by
  constructor
  · decide
  · decide

/-- **C3, amended.**  Re-expanding an already-expanded auction mutates
it: for any nonempty, stripped string without a ` - ` (or ` – `)
separator that is not itself `all pass`, a bracketed element, a `P`
token, or a bare pass (conditions every typical expansion output
satisfies), `expand_auction` treats the whole string as one element and
appends exactly three more `Pass` tokens. -/
theorem C3_reexpansion_appends_three_passes (s : String)
    (hdash : '–' ∉ s.data) (hsep : hasSep s.data = false)
    (hstrip : pyStrip s.data = s.data) (hne : s.data ≠ [])
    (hap : pyLower s.data ≠ "all pass".data)
    (hbr : s.data.head? ≠ some '[')
    (hnp : normP s.data = s.data)
    (hps : isPassTok s.data = false) :
    expand_auction s = s ++ " Pass Pass Pass" := by
  have hel : auctionElements s.data = [s.data] := by
    unfold auctionElements
    rw [replaceEnDash_of_not_mem hdash, splitSep_of_no_sep _ 0 [] hsep]
    simp [hne]
  have hproc : processElems [s.data] 0 false = [(Origin.ownElem, s.data)] := by
    rw [processElems.eq_2]
    rw [hstrip]
    rw [if_neg (by simp [hne]), if_neg hap,
      if_neg (by simp [hbr]), processElems.eq_1]
    simp
  have hmap : (processElems (auctionElements s.data) 0 false).map
      (fun t => (t.1, normP t.2)) = [(Origin.ownElem, s.data)] := by
    rw [hel, hproc]
    simp [hnp]
  have hpad : expandTagged s = [(Origin.ownElem, s.data),
      (Origin.padPass, "Pass".data), (Origin.padPass, "Pass".data),
      (Origin.padPass, "Pass".data)] := by
    unfold expandTagged
    rw [hmap]
    have h1 : needPad [(Origin.ownElem, s.data)] = true := by
      simp [needPad]
    have h2 : needPad [(Origin.ownElem, s.data), (Origin.padPass, "Pass".data)] = true := by
      simp [needPad]
    have h3 : needPad [(Origin.ownElem, s.data), (Origin.padPass, "Pass".data),
        (Origin.padPass, "Pass".data)] = true := by
      simp only [isPassTok] at hps
      simp [needPad, isPassTok]
      left
      simpa using hps
    rw [show (3:Nat) = 2+1 from rfl, padPasses_step, if_pos h1]
    rw [show (2:Nat) = 1+1 from rfl, padPasses_step]
    rw [if_pos (by simpa using h2)]
    rw [show (1:Nat) = 0+1 from rfl, padPasses_step]
    rw [if_pos (by simpa using h3)]
    simp [padPasses]
  show joinStr " " (expandTokens s) = _
  unfold expandTokens
  rw [hpad]
  show s ++ " " ++ ("Pass" ++ " " ++ ("Pass" ++ " " ++ "Pass")) = s ++ " Pass Pass Pass"
  apply String.ext
  simp [String.data_append]

/-- Witness for C3: the expanded empty auction `"Pass Pass Pass"`
satisfies all the hypotheses, and re-expansion appends three passes. -/
theorem C3_witness :
    expand_auction "Pass Pass Pass" = "Pass Pass Pass Pass Pass Pass" :=
  (C3_reexpansion_appends_three_passes "Pass Pass Pass" (by decide)
    (by decide) (by decide) (by decide) (by decide) (by decide) (by decide)
    (by decide)).trans (by decide)

/-- **C4, counterexample.**  Suit-symbol escaping is not idempotent:
`'H keycard'` escapes to `'\H keycard'`, and a second run matches the
keycard rule again (the regex word boundary holds between `\` and `H`),
producing `'\\H keycard'`. -/
theorem C4_counterexample :
    add_suit_symbols (add_suit_symbols "H keycard") ≠
      add_suit_symbols "H keycard" := by
  decide

/-- **C4, amended.**  Escaping is idempotent on representative strings
for the range, rank, bid and `for` rules (their outputs are fixed
points), but the keycard rule double-escapes: an already-escaped suit
letter before `keycard` still matches `\b([CDHS]) (keycard)` because
the backslash is a non-word character, so `'\H keycard'` gains a second
backslash. -/
theorem C4_escape_idempotence_profile :
    add_suit_symbols (add_suit_symbols "5+ C") = add_suit_symbols "5+ C" ∧
    add_suit_symbols (add_suit_symbols "4 S") = add_suit_symbols "4 S" ∧
    add_suit_symbols (add_suit_symbols "QH") = add_suit_symbols "QH" ∧
    add_suit_symbols (add_suit_symbols "KS") = add_suit_symbols "KS" ∧
    add_suit_symbols (add_suit_symbols "1S") = add_suit_symbols "1S" ∧
    add_suit_symbols (add_suit_symbols "3D") = add_suit_symbols "3D" ∧
    add_suit_symbols (add_suit_symbols "keycard for C") =
      add_suit_symbols "keycard for C" ∧
    add_suit_symbols "H keycard" = "\\H keycard" ∧
    add_suit_symbols "\\H keycard" = "\\\\H keycard" := by
  refine ⟨?_, ?_, ?_, ?_, ?_, ?_, ?_, ?_, ?_⟩ <;> decide

/-- **C8.**  In generated lesson commentary, an East or West turn with a
plain pass produces no narration lines (regardless of any footnote),
while a double `X` or redouble `XX` on that turn produces exactly one
narration line, with or without a footnote. -/
theorem C8_opponent_pass_silent_double_narrates (seat bid : String)
    (note : Option Nat) (notes : List (Nat × String))
    (hseat : seat = "E" ∨ seat = "W") :
    (pyUpper bid.data = "PASS".data →
      seatTurnLines notes (seat, bid, note) = []) ∧
    ((bid = "X" ∨ bid = "XX") →
      (seatTurnLines notes (seat, bid, note)).length = 1) := by
  have hX : pyUpper "X".data ≠ "PASS".data := by decide
  have hXX : pyUpper "XX".data ≠ "PASS".data := by decide
  rcases hseat with rfl | rfl <;>
  · constructor
    · intro hp
      simp only [seatTurnLines]
      rw [if_neg (by decide), if_neg (by decide), if_pos (by decide)]
      rw [if_neg (by simp [hp])]
    · rintro (rfl | rfl) <;>
      · simp only [seatTurnLines]
        rw [if_neg (by decide), if_neg (by decide), if_pos (by decide)]
        simp [hX, hXX]

/-- Witness for C8: East passing with no footnote narrates nothing; West
doubling (with a footnote available) narrates exactly one line. -/
theorem C8_witness :
    seatTurnLines [] ("E", "Pass", (none : Option Nat)) = [] ∧
    (seatTurnLines [(1, "takeout")] ("W", "X", some 1)).length = 1 :=
  ⟨(C8_opponent_pass_silent_double_narrates "E" "Pass" none [] (Or.inl rfl)).1
      (by decide),
   (C8_opponent_pass_silent_double_narrates "W" "X" (some 1) [(1, "takeout")]
      (Or.inr rfl)).2 (Or.inl rfl)⟩

/-- **C9.**  Seat rotation is an involution on the four seats, and
rotating a nonempty Deal tag value whose first character is a seat
letter twice returns the original string, the rotation touching only
the first character. -/
theorem C9_rotation_involution :
    (∀ s : String, s = "N" ∨ s = "E" ∨ s = "S" ∨ s = "W" →
      (rotate_seat s).bind rotate_seat = some s) ∧
    (∀ (c : Char) (rest : List Char), c ∈ ['N', 'E', 'S', 'W'] →
      (rotate_deal_tag (String.mk (c :: rest))).bind rotate_deal_tag =
        some (String.mk (c :: rest)) ∧
      ∃ c' : Char, rotate_deal_tag (String.mk (c :: rest)) =
        some (String.mk (c' :: rest))) := by
  constructor
  · rintro s (rfl | rfl | rfl | rfl) <;> decide
  · rintro c rest hc
    fin_cases hc
    · rw [rotate_deal_tag_cons rest (d := 'S') (by decide)]
      refine ⟨?_, ⟨'S', rfl⟩⟩
      show rotate_deal_tag (String.mk ('S' :: rest)) = _
      exact rotate_deal_tag_cons rest (by decide)
    · rw [rotate_deal_tag_cons rest (d := 'W') (by decide)]
      refine ⟨?_, ⟨'W', rfl⟩⟩
      show rotate_deal_tag (String.mk ('W' :: rest)) = _
      exact rotate_deal_tag_cons rest (by decide)
    · rw [rotate_deal_tag_cons rest (d := 'N') (by decide)]
      refine ⟨?_, ⟨'N', rfl⟩⟩
      show rotate_deal_tag (String.mk ('N' :: rest)) = _
      exact rotate_deal_tag_cons rest (by decide)
    · rw [rotate_deal_tag_cons rest (d := 'E') (by decide)]
      refine ⟨?_, ⟨'E', rfl⟩⟩
      show rotate_deal_tag (String.mk ('E' :: rest)) = _
      exact rotate_deal_tag_cons rest (by decide)

/-- Witness for C9: rotating East twice gives East; rotating the deal
prefix of `"N:AKQJ.T98.76.5432 ..."` twice restores it. -/
theorem C9_witness :
    (rotate_seat "E").bind rotate_seat = some "E" ∧
    (rotate_deal_tag (String.mk ('N' :: ":AKQJ".data))).bind rotate_deal_tag =
      some (String.mk ('N' :: ":AKQJ".data)) :=
  ⟨C9_rotation_involution.1 "E" (Or.inr (Or.inl rfl)),
   (C9_rotation_involution.2 'N' ":AKQJ".data (by decide)).1⟩

/-- **C10.**  `expand_auction` is total (it is a Lean function) and its
output always has at least three tokens; an empty or whitespace-only
raw auction expands to exactly `"Pass Pass Pass"`. -/
theorem C10_expand_total_and_trivial_auction (raw : String) :
    3 ≤ (expandTokens raw).length ∧
    (isWsOnly raw = true → expand_auction raw = "Pass Pass Pass") := by
  constructor
  · have := length_ge_three_of_not_needPad (needPad_expandTagged raw)
    simpa [expandTokens] using this
  · intro hws
    unfold isWsOnly at hws
    have hdash : '–' ∉ raw.data := by
      intro hm
      have := List.all_eq_true.mp hws _ hm
      simp [pySpace] at this
    have hd : '-' ∉ raw.data := by
      intro hm
      have := List.all_eq_true.mp hws _ hm
      simp [pySpace] at this
    have hel : auctionElements raw.data =
        if raw.data.isEmpty then [] else [raw.data] := by
      unfold auctionElements
      rw [replaceEnDash_of_not_mem hdash,
        splitSep_of_no_sep _ 0 [] (hasSep_of_no_dash hd)]
      simp
    have hproc : processElems (auctionElements raw.data) 0 false = [] := by
      rw [hel]
      by_cases hz : raw.data.isEmpty
      · rw [if_pos hz]; rfl
      · rw [if_neg hz, processElems.eq_2,
          if_pos (by simp [pyStrip_of_all_space hws])]
        rfl
    show joinStr " " _ = _
    unfold expandTokens expandTagged
    rw [hproc]
    decide

/-- Witness for C10: a whitespace-only auction expands to three passes. -/
theorem C10_witness : expand_auction "  " = "Pass Pass Pass" :=
  (C10_expand_total_and_trivial_auction "  ").2 (by decide)

end Bridge

namespace Bridge

theorem extractLoop_numbered (fuel : Nat) (rest res : List Char)
    (notes : List (List Char)) (n : Nat) :
    (∃ ts : List (List Char),
      notes = ts.mapIdx (fun i t => natChars (i + 1) ++ ':' :: t) ∧
      ts.length = n) →
    ∃ ts : List (List Char),
      (extractLoop fuel rest res notes n).2 =
        ts.mapIdx (fun i t => natChars (i + 1) ++ ':' :: t) := by
  induction fuel, rest, res, notes, n using extractLoop.induct with
  | case1 rest res notes x =>
    rintro ⟨ts, hts, _⟩
    exact ⟨ts, hts⟩
  | case2 fuel res notes x =>
    rintro ⟨ts, hts, _⟩
    exact ⟨ts, hts⟩
  | case3 fuel rest res notes n p ih =>
    rintro ⟨ts, hts, hlen⟩
    rw [extractLoop.eq_3]
    apply ih
    refine ⟨ts ++ [(matchParen rest 1).1.dropLast], ?_, by simp [hlen]⟩
    rw [List.mapIdx_append, hts, hlen]
    simp
  | case4 fuel c rest res notes n hc ih =>
    intro h
    rw [extractLoop.eq_4 res notes n fuel c rest hc]
    exact ih h

theorem matchParen_through (g : List Char) :
    ∀ (d e : Nat) (rest : List Char), balAux g e = true → 0 < d →
    matchParen (g ++ rest) (d + e) =
      (g ++ (matchParen rest d).1, (matchParen rest d).2) := by
  induction g with
  | nil =>
    intro d e rest hb _
    have he : e = 0 := by simpa [balAux] using hb
    subst he
    simp
  | cons c g ih =>
    intro d e rest hb hd
    by_cases hc : c = '('
    · subst hc
      have hb' : balAux g (e + 1) = true := by simpa [balAux] using hb
      have h1 : matchParen (('(' :: g) ++ rest) (d + e) =
          ('(' :: (matchParen (g ++ rest) (d + e + 1)).1,
            (matchParen (g ++ rest) (d + e + 1)).2) := by
        simp [matchParen]
      rw [h1, show d + e + 1 = d + (e + 1) from rfl, ih d (e + 1) rest hb' hd]
      simp
    · by_cases hc' : c = ')'
      · subst hc'
        have hb2 := hb
        simp [balAux] at hb2
        obtain ⟨he, hb'⟩ := hb2
        obtain ⟨f, rfl⟩ : ∃ f, e = f + 1 := ⟨e - 1, by omega⟩
        have h1 : matchParen ((')' :: g) ++ rest) (d + (f + 1)) =
            (')' :: (matchParen (g ++ rest) (d + (f + 1) - 1)).1,
              (matchParen (g ++ rest) (d + (f + 1) - 1)).2) := by
          have hne : ¬ (d + (f + 1) - 1 = 0) := by omega
          have hd0 : ¬ d = 0 := by omega
          simp [matchParen, hne, hd0]
        rw [h1, show d + (f + 1) - 1 = d + f from by omega,
          ih d f rest (by simpa using hb') hd]
        simp
      · have hb' : balAux g e = true := by simpa [balAux, hc, hc'] using hb
        have h1 : matchParen ((c :: g) ++ rest) (d + e) =
            (c :: (matchParen (g ++ rest) (d + e)).1,
              (matchParen (g ++ rest) (d + e)).2) := by
          have hne : ¬ (d + e = 0) := by omega
          simp [matchParen, hc, hc', hne]
        rw [h1, ih d e rest hb' hd]
        simp

theorem matchParen_group (g rest : List Char) (hg : balanced g = true) :
    matchParen (g ++ ')' :: rest) 1 = (g ++ [')'], rest) := by
  have h := matchParen_through g 1 0 (')' :: rest) hg (by decide)
  simp only [Nat.add_zero] at h
  rw [h]
  simp [matchParen]

theorem extractLoop_segment (s : List Char) :
    ∀ (rest res : List Char) (notes : List (List Char)) (n fuel : Nat),
    (∀ c ∈ s, c ≠ '(') →
    extractLoop (s.length + fuel) (s ++ rest) res notes n =
      extractLoop fuel rest (res ++ s) notes n := by
  induction s with
  | nil =>
    intro rest res notes n fuel _
    simp
  | cons c s ih =>
    intro rest res notes n fuel hs
    have hc : c ≠ '(' := hs c (by simp)
    have hlen : (c :: s).length + fuel = (s.length + fuel) + 1 := by
      rw [List.length_cons]
      omega
    rw [hlen, show ((c :: s) ++ rest) = c :: (s ++ rest) from rfl,
      extractLoop.eq_4 res notes n (s.length + fuel) c (s ++ rest) hc,
      ih rest (res ++ [c]) notes n fuel (fun x hx => hs x (by simp [hx]))]
    simp

theorem extractLoop_group (g rest res : List Char) (notes : List (List Char))
    (n fuel : Nat) (hg : balanced g = true) :
    extractLoop (fuel + 1) ('(' :: (g ++ ')' :: rest)) res notes n =
      extractLoop fuel rest
        (pyRstrip res ++ (' ' :: '=' :: natChars (n + 1)) ++ ['='])
        (notes ++ [natChars (n + 1) ++ ':' :: g]) (n + 1) := by
  rw [extractLoop.eq_3]
  simp only [matchParen_group g rest hg]
  rw [show (g ++ [')']).dropLast = g from by simp]

theorem extractLoop_structured :
    ∀ (gs : List (List Char × List Char)) (s0 res : List Char)
      (notes : List (List Char)) (n fuel : Nat),
    (∀ c ∈ s0, c ≠ '(') →
    (∀ p ∈ gs, balanced p.1 = true) →
    (∀ p ∈ gs, ∀ c ∈ p.2, c ≠ '(') →
    extractLoop (s0.length + segsFuel gs + fuel) (assembleAuction s0 gs) res notes n =
      (specRes res n s0 gs, notes ++ specNotes n gs) := by
  intro gs
  induction gs with
  | nil =>
    intro s0 res notes n fuel h0 _ _
    rw [show s0.length + segsFuel [] + fuel = s0.length + fuel from by
        simp [segsFuel],
      show assembleAuction s0 [] = s0 ++ [] from by simp [assembleAuction],
      extractLoop_segment s0 [] res notes n fuel h0]
    cases fuel <;> simp [extractLoop, specRes, specNotes]
  | cons p gs ih =>
    obtain ⟨g, s⟩ := p
    intro s0 res notes n fuel h0 hg hs
    have hassem : assembleAuction s0 ((g, s) :: gs) =
        s0 ++ ('(' :: (g ++ ')' :: assembleAuction s gs)) := by
      simp [assembleAuction]
    have hfuel : s0.length + segsFuel ((g, s) :: gs) + fuel =
        s0.length + ((s.length + segsFuel gs + fuel) + 1) := by
      simp only [segsFuel]
      omega
    rw [hassem, hfuel,
      extractLoop_segment s0 _ res notes n _ h0,
      extractLoop_group g (assembleAuction s gs) (res ++ s0) notes n _
        (hg (g, s) (by simp)),
      ih s _ _ (n + 1) fuel (fun c hc => (hs (g, s) (by simp)) c hc)
        (fun q hq => hg q (by simp [hq]))
        (fun q hq => hs q (by simp [hq]))]
    simp [specRes, specNotes]

theorem segsFuel_le (gs : List (List Char × List Char)) :
    segsFuel gs ≤ ((gs.map fun p => '(' :: p.1 ++ ')' :: p.2).flatten).length := by
  induction gs with
  | nil => simp [segsFuel]
  | cons p gs ih =>
    obtain ⟨g, s⟩ := p
    simp only [segsFuel, List.map_cons, List.flatten_cons, List.length_append,
      List.length_cons]
    omega

/-- **C5.**  Footnote extraction preserves nesting: for every auction
string with balanced parentheses — presented as a paren-free leading
segment `s0` followed, for each top-level group, by its balanced
interior (nested parens allowed) and the paren-free segment after the
group — the i-th top-level group's interior becomes the i-th footnote
`"i:interior"` (1-indexed, reset at the start of the scan), and each
`(...)` span together with any immediately preceding whitespace is
replaced in the rewritten text by the marker `" =i="` with all other
text kept; in particular `"2C (shows (at least) 4+ clubs)"` yields
cleaned text `"2C =1="` and footnote `"1:shows (at least) 4+ clubs"`. -/
theorem C5_footnote_nesting_and_sequential_numbering
    (s0 : List Char) (gs : List (List Char × List Char))
    (h0 : ∀ c ∈ s0, c ≠ '(' ∧ c ≠ ')')
    (hg : ∀ p ∈ gs, balanced p.1 = true)
    (hs : ∀ p ∈ gs, ∀ c ∈ p.2, c ≠ '(' ∧ c ≠ ')') :
    extract_bid_notes (String.mk (assembleAuction s0 gs)) =
      (String.mk (pyStrip (collapseSpaces (specRes [] 0 s0 gs))),
       joinStr "|" ((specNotes 0 gs).map String.mk)) ∧
    extract_bid_notes "2C (shows (at least) 4+ clubs)" =
      ("2C =1=", "1:shows (at least) 4+ clubs") := by
  constructor
  · have hle := segsFuel_le gs
    have hFeq : (assembleAuction s0 gs).length + 1 =
        s0.length + segsFuel gs +
          ((assembleAuction s0 gs).length + 1 - (s0.length + segsFuel gs)) := by
      have hlen : (assembleAuction s0 gs).length =
          s0.length +
            ((gs.map fun p => '(' :: p.1 ++ ')' :: p.2).flatten).length := by
        simp [assembleAuction]
      omega
    have hmain := extractLoop_structured gs s0 [] [] 0
      ((assembleAuction s0 gs).length + 1 - (s0.length + segsFuel gs))
      (fun c hc => (h0 c hc).1) hg (fun p hp c hc => (hs p hp c hc).1)
    rw [← hFeq] at hmain
    show (String.mk (pyStrip (collapseSpaces
        (extractLoop ((assembleAuction s0 gs).length + 1)
          (assembleAuction s0 gs) [] [] 0).1)),
      joinStr "|" (((extractLoop ((assembleAuction s0 gs).length + 1)
          (assembleAuction s0 gs) [] [] 0).2).map String.mk)) = _
    rw [hmain]
    simp
  · decide

/-- Witness for C5: the structured decomposition of
`"2C (shows (at least) 4+ clubs)"` — leading segment `"2C "`, one
top-level group whose interior `"shows (at least) 4+ clubs"` contains
a nested paren pair, and an empty trailing segment. -/
theorem C5_witness :
    extract_bid_notes (String.mk (assembleAuction "2C ".data
        [("shows (at least) 4+ clubs".data, [])])) =
      (String.mk (pyStrip (collapseSpaces (specRes [] 0 "2C ".data
          [("shows (at least) 4+ clubs".data, [])]))),
       joinStr "|" ((specNotes 0
          [("shows (at least) 4+ clubs".data, [])]).map String.mk)) ∧
    extract_bid_notes "2C (shows (at least) 4+ clubs)" =
      ("2C =1=", "1:shows (at least) 4+ clubs") :=
  C5_footnote_nesting_and_sequential_numbering "2C ".data
    [("shows (at least) 4+ clubs".data, [])]
    (by decide) (by decide) (by decide)

theorem hasSep_cons_false {c : Char} {l : List Char}
    (h : hasSep (c :: l) = false) : hasSep l = false := by
  by_cases htr : ∃ t, c = ' ' ∧ l = '-' :: ' ' :: t
  · obtain ⟨t, rfl, rfl⟩ := htr
    rw [hasSep.eq_1] at h
    exact absurd h (by simp)
  · rw [hasSep.eq_2 c l (fun t hc hl => htr ⟨t, hc, hl⟩)] at h
    exact h

theorem no_sep_head {x : Char} {a tail : List Char}
    (hsep : hasSep (x :: a) = false) (hhd : tail.head? ≠ some ' ')
    (hhd2 : tail.head? ≠ some '-') :
    ∀ r1 : List Char, x = ' ' → a ++ tail = '-' :: ' ' :: r1 → False := by
  intro r1 hx heq
  rcases a with _ | ⟨y, a'⟩
  · rw [List.nil_append] at heq
    rw [heq] at hhd2
    simp at hhd2
  · rcases a' with _ | ⟨z, a''⟩
    · have hy : y = '-' := by
        have := congrArg List.head? heq
        simpa using this
      have : tail = ' ' :: r1 := by
        have := congrArg List.tail heq
        simpa [hy] using this
      rw [this] at hhd
      simp at hhd
    · have hy : y = '-' := by
        have := congrArg List.head? heq
        simpa using this
      have hz : z = ' ' := by
        have := congrArg (fun l : List Char => l.tail.head?) heq
        simpa [hy] using this
      subst hx hy hz
      rw [hasSep.eq_1] at hsep
      exact absurd hsep (by simp)

theorem splitSep_entering_paren : ∀ (a cur rest : List Char),
    hasSep a = false → '(' ∉ a → ')' ∉ a →
    splitSep (a ++ '(' :: rest) 0 cur = splitSep ('(' :: rest) 0 (cur ++ a) := by
  intro a
  induction a with
  | nil => intro cur rest _ _ _; simp
  | cons x a ih =>
    intro cur rest hsep hop hcl
    have hx1 : x ≠ '(' := fun h => hop (h ▸ List.mem_cons_self x a)
    have hx2 : x ≠ ')' := fun h => hcl (h ▸ List.mem_cons_self x a)
    have step : splitSep ((x :: a) ++ '(' :: rest) 0 cur =
        splitSep (a ++ '(' :: rest) 0 (cur ++ [x]) :=
      splitSep.eq_5 0 cur x (a ++ '(' :: rest)
        (fun h => hx1 h) (fun h => hx2 h)
        (no_sep_head hsep (by simp) (by simp))
    rw [step, ih (cur ++ [x]) rest (hasSep_cons_false hsep)
      (fun h => hop (List.mem_cons_of_mem _ h))
      (fun h => hcl (List.mem_cons_of_mem _ h))]
    simp

theorem splitSep_inside_paren : ∀ (b cur rest : List Char) (d : Int),
    d ≠ 0 → '(' ∉ b → ')' ∉ b →
    splitSep (b ++ ')' :: rest) d cur = splitSep (')' :: rest) d (cur ++ b) := by
  intro b
  induction b with
  | nil => intro cur rest d _ _ _; simp
  | cons x b ih =>
    intro cur rest d hd hop hcl
    have hx1 : x ≠ '(' := fun h => hop (h ▸ List.mem_cons_self x b)
    have hx2 : x ≠ ')' := fun h => hcl (h ▸ List.mem_cons_self x b)
    by_cases htr : x = ' ' ∧ ∃ b2 : List Char, b = '-' :: ' ' :: b2
    · obtain ⟨hx, b2, hb⟩ := htr
      subst hx hb
      rw [show (' ' :: '-' :: ' ' :: b2) ++ ')' :: rest =
        ' ' :: '-' :: ' ' :: (b2 ++ ')' :: rest) from by simp]
      rw [splitSep.eq_4, if_neg hd]
      have := ih (cur ++ [' ']) rest d hd
        (fun h => hop (List.mem_cons_of_mem _ h))
        (fun h => hcl (List.mem_cons_of_mem _ h))
      rw [show ('-' :: ' ' :: b2) ++ ')' :: rest =
        '-' :: ' ' :: (b2 ++ ')' :: rest) from by simp] at this
      rw [this]
      simp
    · have hside : ∀ r1 : List Char, x = ' ' → b ++ ')' :: rest = '-' :: ' ' :: r1 → False := by
        intro r1 hx heq
        rcases b with _ | ⟨y, b1⟩
        · simp at heq
        · rcases b1 with _ | ⟨z, b2⟩
          · have hy : y = '-' := by
              have := congrArg List.head? heq
              simpa using this
            have := congrArg (fun l : List Char => l.tail.head?) heq
            simp [hy] at this
          · have hy : y = '-' := by
              have := congrArg List.head? heq
              simpa using this
            have hz : z = ' ' := by
              have := congrArg (fun l : List Char => l.tail.head?) heq
              simpa [hy] using this
            exact htr ⟨hx, b2, by rw [hy, hz]⟩
      have step : splitSep ((x :: b) ++ ')' :: rest) d cur =
          splitSep (b ++ ')' :: rest) d (cur ++ [x]) :=
        splitSep.eq_5 d cur x (b ++ ')' :: rest)
          (fun h => hx1 h) (fun h => hx2 h) hside
      rw [step, ih (cur ++ [x]) rest d hd
        (fun h => hop (List.mem_cons_of_mem _ h))
        (fun h => hcl (List.mem_cons_of_mem _ h))]
      simp

/-- **C6.**  The expansion splitter never splits inside a parenthesized
span: for any prefix `a` (separator-free, paren-free), any annotation
body `b` (paren-free but possibly containing ` - `), and any
continuation `c`, the separator inside `(b)` is not a split point and
the one after `)` is, so the parenthesized element is kept whole and
splitting continues independently on `c`. -/
theorem C6_no_split_inside_parens (a b c : List Char)
    (hsep : hasSep a = false) (hop : '(' ∉ a) (hcl : ')' ∉ a)
    (hbo : '(' ∉ b) (hbc : ')' ∉ b) :
    splitSep (a ++ '(' :: b ++ ')' :: ' ' :: '-' :: ' ' :: c) 0 [] =
      (a ++ '(' :: b ++ [')']) :: splitSep c 0 [] := by
  rw [show a ++ '(' :: b ++ ')' :: ' ' :: '-' :: ' ' :: c =
    a ++ '(' :: (b ++ ')' :: ' ' :: '-' :: ' ' :: c) from by simp]
  rw [splitSep_entering_paren a [] (b ++ ')' :: ' ' :: '-' :: ' ' :: c) hsep hop hcl]
  rw [splitSep.eq_2]
  rw [show (0 : Int) + 1 = 1 from rfl]
  rw [splitSep_inside_paren b ([] ++ a ++ ['(']) (' ' :: '-' :: ' ' :: c) 1 (by norm_num) hbo hbc]
  rw [splitSep.eq_3]
  rw [show (1 : Int) - 1 = 0 from rfl]
  rw [splitSep.eq_4, if_pos rfl]
  congr 1
  simp

theorem pyStrip_eq_self {l : List Char}
    (h1 : ∀ c, l.head? = some c → pySpace c = false)
    (h2 : ∀ c, l.getLast? = some c → pySpace c = false) :
    pyStrip l = l := by
  unfold pyStrip
  rcases hl : l with _ | ⟨a, l'⟩
  · rfl
  · have ha : pySpace a = false := h1 a (by rw [hl]; rfl)
    rw [← hl]
    have hdw : l.dropWhile pySpace = l := by
      rw [hl, List.dropWhile_cons, ha]
      simp
    rw [hdw]
    rcases hr : l.reverse with _ | ⟨b, r'⟩
    · simp at hr
      rw [hr] at hl
      simp at hl
    · have hb : pySpace b = false := by
        apply h2
        rw [← List.head?_reverse, hr]
        rfl
      rw [List.dropWhile_cons, hb]
      simp [← hr]

theorem lastQuoteBracket_mk : ∀ (v : List Char), '"' ∉ v →
    ∀ (i : Nat) (acc : Option Nat),
    lastQuoteBracket (v ++ ['"', ']']) i acc = some (i + v.length) := by
  intro v
  induction v with
  | nil =>
    intro _ i acc
    rw [List.nil_append, lastQuoteBracket.eq_1]
    rw [lastQuoteBracket.eq_2 _ _ _ _ (by intro r h1 h2; simp at h1)]
    rw [lastQuoteBracket.eq_3]
    simp
  | cons c v ih =>
    intro hq i acc
    have hc : c ≠ '"' := fun h => hq (h ▸ List.mem_cons_self c v)
    rw [List.cons_append,
      lastQuoteBracket.eq_2 _ _ _ _ (by intro r h1 _; exact hc h1)]
    rw [ih (fun h => hq (List.mem_cons_of_mem _ h))]
    simp
    omega

theorem parseTagLine_mk (nm v : List Char) (hnm : nm ≠ [])
    (hw : ∀ c ∈ nm, wordChar c = true) (hv : '"' ∉ v) :
    parseTagLine ('[' :: (nm ++ ' ' :: '"' :: (v ++ ['"', ']']))) =
      some (String.mk nm, String.mk v) := by
  rw [parseTagLine.eq_1]
  have htw : (nm ++ ' ' :: '"' :: (v ++ ['"', ']'])).takeWhile wordChar = nm := by
    rw [show nm ++ ' ' :: '"' :: (v ++ ['"', ']']) =
      nm ++ (' ' :: '"' :: (v ++ ['"', ']'])) from rfl]
    rw [List.takeWhile_append]
    rw [List.takeWhile_eq_self_iff.mpr hw]
    simp [List.takeWhile_cons, pySpace, wordChar]
  rw [htw]
  rw [if_neg (by simp [hnm])]
  show (if (List.takeWhile pySpace (List.drop nm.length
      (nm ++ ' ' :: '"' :: (v ++ ['"', ']'])))).isEmpty = true then _ else _) = _
  rw [List.drop_left]
  have hts : (' ' :: '"' :: (v ++ ['"', ']'])).takeWhile pySpace = [' '] := by
    rw [List.takeWhile_cons]
    simp [pySpace, List.takeWhile_cons]
  rw [hts]
  rw [if_neg (by simp)]
  show (match List.drop [' '].length (' ' :: '"' :: (v ++ ['"', ']'])) with
    | '"' :: r3 =>
      match lastQuoteBracket r3 0 none with
      | some k => some (String.mk nm, String.mk (List.take k r3))
      | none => none
    | _ => none) = _
  rw [show List.drop [' '].length (' ' :: '"' :: (v ++ ['"', ']'])) =
    '"' :: (v ++ ['"', ']']) from rfl]
  show (match lastQuoteBracket (v ++ ['"', ']']) 0 none with
    | some k => some (String.mk nm, String.mk (List.take k (v ++ ['"', ']'])))
    | none => none) = _
  rw [lastQuoteBracket_mk v hv 0 none]
  simp [List.take_left]

theorem parseNoteValue_mk (ds t : List Char) (hds : ds ≠ [])
    (hd : ∀ c ∈ ds, c.isDigit = true) (ht : t ≠ []) :
    parseNoteValue (ds ++ ':' :: t) = some (pyInt ds, String.mk t) := by
  unfold parseNoteValue
  have htw : (ds ++ ':' :: t).takeWhile Char.isDigit = ds := by
    rw [List.takeWhile_append]
    rw [List.takeWhile_eq_self_iff.mpr hd]
    simp [List.takeWhile_cons]
  rw [htw]
  rw [if_neg (by simp [hds])]
  show (match List.drop ds.length (ds ++ ':' :: t) with
    | ':' :: rest => if rest.isEmpty = true then none else some (pyInt ds, String.mk rest)
    | _ => none) = _
  rw [List.drop_left]
  show (if t.isEmpty = true then none else some (pyInt ds, String.mk t)) = _
  rw [if_neg (by simp [ht])]

theorem tagLine_data (tag value : String) :
    (tagLine tag value).data =
      '[' :: (tag.data ++ ' ' :: '"' :: (value.data ++ ['"', ']'])) := by
  unfold tagLine
  rw [String.data_append, String.data_append, String.data_append]
  simp

theorem tagLine_getLast (tag value : String) :
    (tagLine tag value).data.getLast? = some ']' := by
  rw [tagLine_data]
  rw [show ('[' :: (tag.data ++ ' ' :: '"' :: (value.data ++ ['"', ']']))) =
    ('[' :: tag.data ++ ' ' :: '"' :: value.data) ++ ['"', ']'] from by simp]
  rw [List.getLast?_append_of_ne_nil _ (by simp)]
  rfl

theorem tagLine_strip (tag value : String) :
    pyStrip (tagLine tag value).data = (tagLine tag value).data := by
  apply pyStrip_eq_self
  · intro c hc
    rw [tagLine_data] at hc
    simp at hc
    rw [← hc]
    rfl
  · intro c hc
    rw [tagLine_getLast] at hc
    rw [← Option.some_inj.mp hc]
    rfl

theorem tagLine_parse (tag value : String) (hnm : tag.data ≠ [])
    (hw : ∀ c ∈ tag.data, wordChar c = true) (hv : '"' ∉ value.data) :
    parseTagLine (tagLine tag value).data = some (tag, value) := by
  rw [tagLine_data, parseTagLine_mk tag.data value.data hnm hw hv]

theorem parseStep_eq_tag (st : PState) (line tag value : String)
    (hstrip : pyStrip line.data = line.data)
    (hpct : line.data.head? ≠ some '%')
    (htag : parseTagLine line.data = some (tag, value)) :
    parseStep st line = parseStepTag st line tag value := by
  unfold parseStep
  rw [hstrip, show String.mk line.data = line from rfl, if_neg hpct, htag]

theorem parseStep_eq_plain (st : PState) (line : String)
    (hstrip : pyStrip line.data = line.data)
    (hpct : line.data.head? ≠ some '%')
    (htag : parseTagLine line.data = none) :
    parseStep st line = parseStepPlain st line := by
  unfold parseStep
  rw [hstrip, show String.mk line.data = line from rfl, if_neg hpct, htag]

theorem parseStep_meta (st : PState) (c : PBoard) (hcur : st.current = some c)
    (tag value : String) (hnm : tag.data ≠ [])
    (hw : ∀ ch ∈ tag.data, wordChar ch = true) (hv : '"' ∉ value.data)
    (hne : tag ≠ "Event") (hna : tag ≠ "Auction") (hnn : tag ≠ "Note") :
    parseStep st (tagLine tag value) = some { st with
      current := some { c with meta_tags := c.meta_tags ++ [(tag, value)] } } := by
  rw [parseStep_eq_tag st _ tag value (tagLine_strip tag value)
    (by rw [tagLine_data]; simp) (tagLine_parse tag value hnm hw hv)]
  unfold parseStepTag
  simp only [if_neg hne, if_neg hna, if_neg hnn, hcur]

theorem parseStep_auction_tag (st : PState) (c : PBoard) (hcur : st.current = some c)
    (value : String) (hv : '"' ∉ value.data) :
    parseStep st (tagLine "Auction" value) = some { st with
      current := some { c with auction_dealer := value }
      in_auction := true } := by
  rw [parseStep_eq_tag st _ "Auction" value (tagLine_strip _ value)
    (by rw [tagLine_data]; simp) (tagLine_parse "Auction" value (by decide) (by decide) hv)]
  unfold parseStepTag
  simp only [if_neg (show ("Auction" : String) ≠ "Event" from by decide),
    if_pos rfl, hcur]
  simp

theorem parseStep_note_tag (st : PState) (c : PBoard) (hcur : st.current = some c)
    (ds t : List Char) (hds : ds ≠ []) (hd : ∀ ch ∈ ds, ch.isDigit = true)
    (ht : t ≠ []) (hq : '"' ∉ ds ++ ':' :: t) :
    parseStep st (tagLine "Note" (String.mk (ds ++ ':' :: t))) = some { st with
      in_auction := false
      current := some { c with
        note_lines := c.note_lines ++ [tagLine "Note" (String.mk (ds ++ ':' :: t))]
        notes := updAssoc c.notes (pyInt ds) (String.mk t) } } := by
  rw [parseStep_eq_tag st _ "Note" (String.mk (ds ++ ':' :: t))
    (tagLine_strip _ _) (by rw [tagLine_data]; simp)
    (tagLine_parse "Note" _ (by decide) (by decide) hq)]
  unfold parseStepTag
  simp only [if_neg (show ("Note" : String) ≠ "Event" from by decide),
    if_neg (show ("Note" : String) ≠ "Auction" from by decide), if_pos rfl, hcur]
  rw [parseNoteValue_mk ds t hds hd ht]
  simp

theorem parseStep_event (value : String) (hv : '"' ∉ value.data) :
    parseStep { boards := []
                current := none
                in_auction := false
                in_commentary := false
                commentary_text := "" }
      (tagLine "Event" value) =
    some { boards := []
           in_auction := false
           in_commentary := false
           commentary_text := ""
           current := some { freshBoard with meta_tags := [("Event", value)] } } := by
  rw [parseStep_eq_tag _ _ "Event" value (tagLine_strip _ value)
    (by rw [tagLine_data]; simp) (tagLine_parse "Event" value (by decide) (by decide) hv)]
  unfold parseStepTag
  simp only [if_pos rfl,
    if_neg (show ("Event" : String) ≠ "Auction" from by decide),
    if_neg (show ("Event" : String) ≠ "Note" from by decide)]
  rfl

theorem parseStep_body (st : PState) (c : PBoard) (hcur : st.current = some c)
    (hia : st.in_auction = true) (hic : st.in_commentary = false)
    (l : String) (hne : l.data ≠ []) (hstrip : pyStrip l.data = l.data)
    (h1 : l.data.head? ≠ some '[') (h2 : l.data.head? ≠ some '{')
    (h3 : l.data.head? ≠ some '%') :
    parseStep st l = some { st with
      current := some { c with auction_lines := c.auction_lines ++ [l] } } := by
  rw [parseStep_eq_plain st l hstrip h3 (parseTagLine.eq_2 l.data (by
    intro rest hr
    rw [hr] at h1
    simp at h1))]
  unfold parseStepPlain
  rw [if_neg h2, hic]
  simp only [Bool.false_eq_true, if_false]
  rw [hia]
  have hie : l.isEmpty = false := by
    rw [Bool.eq_false_iff]
    intro hh
    rw [String.isEmpty_iff] at hh
    rw [hh] at hne
    simp at hne
  rw [hie]
  simp only [Bool.true_and, Bool.not_false, if_pos rfl, hcur]
  simp

theorem parseStep_blank (st : PState) :
    ∃ (ic : Bool) (ct : String), parseStep st "" =
      some { st with in_commentary := ic, commentary_text := ct } := by
  rw [parseStep_eq_plain st "" rfl (by simp)
    (parseTagLine.eq_2 ("" : String).data (by intro rest hr; simp at hr))]
  unfold parseStepPlain
  rw [if_neg (by simp)]
  by_cases hic : st.in_commentary
  · rw [if_pos hic]
    exact ⟨_, _, rfl⟩
  · rw [if_neg hic]
    rw [show (st.in_auction && !("" : String).isEmpty) = false from by
      rw [show ("" : String).isEmpty = true from rfl]
      simp]
    rw [if_neg (by simp)]
    exact ⟨st.in_commentary, st.commentary_text, rfl⟩

theorem parseStep_comment_line (st : PState) (notes : String) :
    ∃ (ic : Bool) (ct : String),
      parseStep st ("\x7b " ++ notes ++ " \x7d") =
        some { st with
          in_auction := false
          in_commentary := ic
          commentary_text := ct } := by
  have hdata : ("\x7b " ++ notes ++ " \x7d").data = '{' :: ' ' :: (notes.data ++ [' ', '}']) := by
    rw [String.data_append, String.data_append]
    simp
  have hlast : ("\x7b " ++ notes ++ " \x7d").data.getLast? = some '}' := by
    rw [hdata]
    rw [show '{' :: ' ' :: (notes.data ++ [' ', '}']) =
      ('{' :: ' ' :: notes.data ++ [' ']) ++ ['}'] from by simp]
    rw [List.getLast?_append_of_ne_nil _ (by simp)]
    rfl
  have hstrip : pyStrip ("\x7b " ++ notes ++ " \x7d").data = ("\x7b " ++ notes ++ " \x7d").data := by
    apply pyStrip_eq_self
    · intro ch hc
      rw [hdata] at hc
      simp at hc
      rw [← hc]
      rfl
    · intro ch hc
      rw [hlast] at hc
      rw [← Option.some_inj.mp hc]
      rfl
  rw [parseStep_eq_plain st _ hstrip (by rw [hdata]; simp)
    (parseTagLine.eq_2 _ (by
      intro rest hr
      rw [hdata] at hr
      simp at hr))]
  unfold parseStepPlain
  rw [if_pos (by rw [hdata]; rfl)]
  exact ⟨_, _, rfl⟩

theorem parseFold_append (l1 l2 : List String) (st st' : PState)
    (h : parseFold l1 st = some st') :
    parseFold (l1 ++ l2) st = parseFold l2 st' := by
  induction l1 generalizing st with
  | nil =>
    simp only [parseFold] at h
    rw [Option.some_inj] at h
    rw [h, List.nil_append]
  | cons l ls ih =>
    rw [List.cons_append]
    match hs : parseStep st l with
    | none =>
      unfold parseFold at h
      rw [hs] at h
      exact absurd h (by simp)
    | some st2 =>
      unfold parseFold at h
      simp only [hs] at h
      unfold parseFold
      simp only [hs]
      rw [ih st2 h]
      cases l2 <;> rfl

theorem updAssoc_append {l : List (Nat × String)} {k : Nat} {v : String}
    (h : k ∉ l.map Prod.fst) : updAssoc l k v = l ++ [(k, v)] := by
  induction l with
  | nil => rfl
  | cons p l ih =>
    obtain ⟨a, b⟩ := p
    unfold updAssoc
    rw [if_neg (by
      intro he
      exact h (by rw [he]; simp))]
    rw [ih (fun hm => h (by simp at hm ⊢; right; exact hm))]
    simp

theorem parseFold_body_lines : ∀ (ls : List String),
    (∀ l ∈ ls, l.data ≠ [] ∧ pyStrip l.data = l.data ∧
      l.data.head? ≠ some '[' ∧ l.data.head? ≠ some '{' ∧
      l.data.head? ≠ some '%') →
    ∀ (st : PState) (c : PBoard), st.current = some c →
      st.in_auction = true → st.in_commentary = false →
    parseFold ls st = some { st with
      current := some { c with auction_lines := c.auction_lines ++ ls } } := by
  intro ls
  induction ls with
  | nil =>
    intro _ st c hcur _ _
    unfold parseFold
    rw [List.append_nil]
    rw [show ({ c with auction_lines := c.auction_lines } : PBoard) = c from rfl]
    rw [← hcur]
  | cons l ls ih =>
    intro hgood st c hcur hia hic
    obtain ⟨h1, h2, h3, h4, h5⟩ := hgood l (by simp)
    have hstep := parseStep_body st c hcur hia hic l h1 h2 h3 h4 h5
    unfold parseFold
    simp only [hstep]
    have := ih (fun x hx => hgood x (List.mem_cons_of_mem _ hx))
      { st with current := some { c with auction_lines := c.auction_lines ++ [l] } }
      { c with auction_lines := c.auction_lines ++ [l] } rfl hia hic
    rw [this]
    simp

theorem parseFold_note_lines : ∀ (ps : List (List Char × List Char)),
    (∀ p ∈ ps, p.1 ≠ [] ∧ (∀ ch ∈ p.1, ch.isDigit = true) ∧ p.2 ≠ [] ∧
      '"' ∉ p.1 ++ ':' :: p.2) →
    ∀ (st : PState) (c : PBoard), st.current = some c →
    (∀ p ∈ ps, pyInt p.1 ∉ c.notes.map Prod.fst) →
    (ps.map fun p => pyInt p.1).Nodup →
    ∃ ia : Bool,
      parseFold (ps.map fun p => tagLine "Note" (String.mk (p.1 ++ ':' :: p.2))) st =
      some { st with
        in_auction := ia
        current := some { c with
          note_lines := c.note_lines ++
            ps.map (fun p => tagLine "Note" (String.mk (p.1 ++ ':' :: p.2)))
          notes := c.notes ++ ps.map (fun p => (pyInt p.1, String.mk p.2)) } } := by
  intro ps
  induction ps with
  | nil =>
    intro _ st c hcur _ _
    refine ⟨st.in_auction, ?_⟩
    unfold parseFold
    simp only [List.map_nil, List.append_nil]
    rw [show ({ c with note_lines := c.note_lines, notes := c.notes } : PBoard) = c from rfl]
    rw [← hcur]
  | cons p ps ih =>
    intro hgood st c hcur hfresh hnodup
    rw [List.map_cons, List.nodup_cons] at hnodup
    obtain ⟨h1, h2, h3, h4⟩ := hgood p (by simp)
    have hstep := parseStep_note_tag st c hcur p.1 p.2 h1 h2 h3 h4
    rw [updAssoc_append (hfresh p (by simp))] at hstep
    rw [List.map_cons]
    unfold parseFold
    simp only [hstep]
    have hfresh2 : ∀ q ∈ ps, pyInt q.1 ∉
        (c.notes ++ [(pyInt p.1, String.mk p.2)]).map Prod.fst := by
      intro q hq
      rw [List.map_append]
      intro hm
      rw [List.mem_append] at hm
      rcases hm with hm | hm
      · exact hfresh q (List.mem_cons_of_mem _ hq) hm
      · simp at hm
        exact hnodup.1 (by rw [← hm]; exact List.mem_map_of_mem _ hq)
    obtain ⟨ia, hrest⟩ := ih (fun q hq => hgood q (List.mem_cons_of_mem _ hq))
      { st with
        in_auction := false
        current := some { c with
          note_lines := c.note_lines ++ [tagLine "Note" (String.mk (p.1 ++ ':' :: p.2))]
          notes := c.notes ++ [(pyInt p.1, String.mk p.2)] } }
      { c with
        note_lines := c.note_lines ++ [tagLine "Note" (String.mk (p.1 ++ ':' :: p.2))]
        notes := c.notes ++ [(pyInt p.1, String.mk p.2)] }
      rfl hfresh2 hnodup.2
    refine ⟨ia, ?_⟩
    rw [hrest]
    simp

theorem pySplitWsAux_words (q : Char → Bool) : ∀ (l cur : List Char),
    (∀ ch ∈ l, q ch = true) →
    (∀ ch ∈ cur, q ch = true ∧ pySpace ch = false) →
    ∀ w ∈ pySplitWsAux cur l, w ≠ [] ∧ ∀ ch ∈ w, q ch = true ∧ pySpace ch = false := by
  intro l
  induction l with
  | nil =>
    intro cur _ hcur w hw
    unfold pySplitWsAux at hw
    by_cases hc : cur.isEmpty
    · rw [if_pos hc] at hw
      simp at hw
    · rw [if_neg hc] at hw
      simp at hw
      subst hw
      refine ⟨by simpa using hc, ?_⟩
      intro ch hch
      exact hcur ch (by simpa using hch)
  | cons c l ih =>
    intro cur hl hcur w hw
    unfold pySplitWsAux at hw
    by_cases hs : pySpace c
    · rw [if_pos hs] at hw
      by_cases hc : cur.isEmpty
      · rw [if_pos hc] at hw
        exact ih [] (fun ch hch => hl ch (List.mem_cons_of_mem _ hch)) (by simp) w hw
      · rw [if_neg hc] at hw
        rcases List.mem_cons.mp hw with hw | hw
        · subst hw
          refine ⟨by simpa using hc, ?_⟩
          intro ch hch
          exact hcur ch (by simpa using hch)
        · exact ih [] (fun ch hch => hl ch (List.mem_cons_of_mem _ hch)) (by simp) w hw
    · rw [if_neg hs] at hw
      refine ih (c :: cur) (fun ch hch => hl ch (List.mem_cons_of_mem _ hch)) ?_ w hw
      intro ch hch
      rcases List.mem_cons.mp hch with rfl | hch
      · exact ⟨hl ch (by simp), by simpa using hs⟩
      · exact hcur ch hch

theorem groupBids_edge (q : Char → Bool) : ∀ (ws : List (List Char)),
    (∀ w ∈ ws, w ≠ [] ∧ ∀ ch ∈ w, q ch = true ∧ pySpace ch = false) →
    ∀ b ∈ groupBids ws, b ≠ [] ∧
      (∀ ch, b.head? = some ch → q ch = true ∧ pySpace ch = false) ∧
      (∀ ch, b.getLast? = some ch → pySpace ch = false) := by
  intro ws
  induction ws using groupBids.induct with
  | case1 =>
    intro _ b hb
    simp [groupBids] at hb
  | case2 t f rest hf ih =>
    intro hws b hb
    unfold groupBids at hb
    rw [if_pos hf] at hb
    rcases List.mem_cons.mp hb with rfl | hb
    · obtain ⟨ht1, ht2⟩ := hws t (by simp)
      obtain ⟨hf1, hf2⟩ := hws f (by simp)
      refine ⟨by simp, ?_, ?_⟩
      · intro ch hch
        rw [List.head?_append_of_ne_nil t ht1] at hch
        exact ht2 ch (List.mem_of_mem_head? hch)
      · intro ch hch
        rw [show t ++ ' ' :: f = t ++ ([' '] ++ f) from by simp,
          List.getLast?_append_of_ne_nil _ (by simp),
          List.getLast?_append_of_ne_nil _ hf1] at hch
        exact (hf2 ch (List.mem_of_mem_getLast? hch)).2
    · exact ih (fun w hw => hws w (by simp at hw ⊢; tauto)) b hb
  | case3 t f rest hf ih =>
    intro hws b hb
    unfold groupBids at hb
    rw [if_neg hf] at hb
    rcases List.mem_cons.mp hb with rfl | hb
    · obtain ⟨ht1, ht2⟩ := hws b (by simp)
      refine ⟨ht1, ?_, ?_⟩
      · intro ch hch
        exact ht2 ch (List.mem_of_mem_head? hch)
      · intro ch hch
        exact (ht2 ch (List.mem_of_mem_getLast? hch)).2
    · exact ih (fun w hw => hws w (by simp at hw ⊢; tauto)) b hb
  | case4 t =>
    intro hws b hb
    unfold groupBids at hb
    rcases List.mem_singleton.mp hb with rfl
    obtain ⟨ht1, ht2⟩ := hws b (by simp)
    refine ⟨ht1, ?_, ?_⟩
    · intro ch hch
      exact ht2 ch (List.mem_of_mem_head? hch)
    · intro ch hch
      exact (ht2 ch (List.mem_of_mem_getLast? hch)).2

theorem chunk4_mem : ∀ (bs : List (List Char)),
    ∀ piece ∈ chunk4 bs, piece ≠ [] ∧ ∀ b ∈ piece, b ∈ bs := by
  intro bs
  induction bs using chunk4.induct with
  | case1 =>
    intro piece hp
    simp [chunk4] at hp
  | case2 a b c d rest ih =>
    intro piece hp
    unfold chunk4 at hp
    rcases List.mem_cons.mp hp with rfl | hp
    · exact ⟨by simp, by intro x hx; simp at hx ⊢; tauto⟩
    · obtain ⟨h1, h2⟩ := ih piece hp
      exact ⟨h1, fun x hx => by simp; have := h2 x hx; tauto⟩
  | case3 l h1 h2 =>
    intro piece hp
    rw [chunk4.eq_3 l h1 h2] at hp
    rcases List.mem_singleton.mp hp with rfl
    exact ⟨h1, fun x hx => hx⟩

theorem joinStr_space_line (q : Char → Bool) : ∀ (piece : List (List Char)),
    piece ≠ [] →
    (∀ b ∈ piece, b ≠ [] ∧
      (∀ ch, b.head? = some ch → q ch = true ∧ pySpace ch = false) ∧
      (∀ ch, b.getLast? = some ch → pySpace ch = false)) →
    (joinStr " " (piece.map String.mk)).data ≠ [] ∧
    (∀ ch, (joinStr " " (piece.map String.mk)).data.head? = some ch →
      q ch = true ∧ pySpace ch = false) ∧
    (∀ ch, (joinStr " " (piece.map String.mk)).data.getLast? = some ch →
      pySpace ch = false) := by
  intro piece
  induction piece with
  | nil => intro h _; exact absurd rfl h
  | cons b rest ih =>
    intro _ hgood
    obtain ⟨hb1, hb2, hb3⟩ := hgood b (by simp)
    rcases rest with _ | ⟨b2, rest'⟩
    · rw [show List.map String.mk [b] = [String.mk b] from rfl]
      rw [show joinStr " " [String.mk b] = String.mk b from rfl]
      exact ⟨hb1, hb2, hb3⟩
    · have hrest := ih (by simp) (fun x hx => hgood x (List.mem_cons_of_mem _ hx))
      rw [show List.map String.mk (b :: b2 :: rest') =
        String.mk b :: List.map String.mk (b2 :: rest') from rfl]
      rw [show joinStr " " (String.mk b :: List.map String.mk (b2 :: rest')) =
        String.mk b ++ " " ++ joinStr " " (List.map String.mk (b2 :: rest')) from by
          rcases rest' with _ | ⟨x, xs⟩ <;> rfl]
      have hdata : (String.mk b ++ " " ++ joinStr " " (List.map String.mk (b2 :: rest'))).data =
          b ++ ' ' :: (joinStr " " (List.map String.mk (b2 :: rest'))).data := by
        rw [String.data_append, String.data_append]
        simp
      refine ⟨by rw [hdata]; simp [hb1], ?_, ?_⟩
      · intro ch hch
        rw [hdata, List.head?_append_of_ne_nil b hb1] at hch
        exact hb2 ch hch
      · intro ch hch
        rw [hdata] at hch
        rw [show b ++ ' ' :: (joinStr " " (List.map String.mk (b2 :: rest'))).data =
          (b ++ [' ']) ++ (joinStr " " (List.map String.mk (b2 :: rest'))).data from by simp,
          List.getLast?_append_of_ne_nil _ hrest.1] at hch
        exact hrest.2.2 ch hch

theorem format_lines_good (auction : String)
    (hch : ∀ ch ∈ auction.data, ch ≠ '[' ∧ ch ≠ '{' ∧ ch ≠ '%') :
    ∀ l ∈ format_auction_lines_list auction, l.data ≠ [] ∧
      pyStrip l.data = l.data ∧ l.data.head? ≠ some '[' ∧
      l.data.head? ≠ some '{' ∧ l.data.head? ≠ some '%' := by
  intro l hl
  unfold format_auction_lines_list at hl
  rw [List.mem_map] at hl
  obtain ⟨piece, hpiece, rfl⟩ := hl
  set q : Char → Bool := fun ch => !(ch = '[' || ch = '{' || ch = '%') with hq
  have hwords := pySplitWsAux_words q auction.data []
    (fun ch hm => by
      obtain ⟨a1, a2, a3⟩ := hch ch hm
      simp [hq, a1, a2, a3])
    (by simp)
  have hbids := groupBids_edge q (pySplitWs auction.data)
    (fun w hw => hwords w hw)
  obtain ⟨hp1, hp2⟩ := chunk4_mem (groupBids (pySplitWs auction.data)) piece hpiece
  have hline := joinStr_space_line q piece hp1 (fun b hb => hbids b (hp2 b hb))
  refine ⟨hline.1, ?_, ?_, ?_, ?_⟩
  · apply pyStrip_eq_self
    · intro ch hch2
      exact (hline.2.1 ch hch2).2
    · intro ch hch2
      exact hline.2.2 ch hch2
  · intro hbad
    have := (hline.2.1 '[' hbad).1
    simp [hq] at this
  · intro hbad
    have := (hline.2.1 '{' hbad).1
    simp [hq] at this
  · intro hbad
    have := (hline.2.1 '%' hbad).1
    simp [hq] at this

/-- Witness for C6: the spec's example `"1C (shows 4+ - or more C) - Pass"`
splits only at the second ` - `, into exactly two elements. -/
theorem C6_witness :
    auctionElements "1C (shows 4+ - or more C) - Pass".data =
      ["1C (shows 4+ - or more C)".data, "Pass".data] := by
  have h := C6_no_split_inside_parens "1C ".data "shows 4+ - or more C".data
    "Pass".data (by decide) (by decide) (by decide) (by decide) (by decide)
  unfold auctionElements
  rw [show replaceEnDash "1C (shows 4+ - or more C) - Pass".data =
    "1C ".data ++ '(' :: "shows 4+ - or more C".data ++
      ')' :: ' ' :: '-' :: ' ' :: "Pass".data from by decide]
  rw [h]
  decide

theorem parseFold_nil (st : PState) : parseFold [] st = some st := rfl

theorem parseFold_cons {l : String} {ls : List String} {st st' : PState}
    (h : parseStep st l = some st') :
    parseFold (l :: ls) st = parseFold ls st' := by
  unfold parseFold
  simp only [h]
  cases ls <;> rfl

theorem parseStep_blank_nc (st : PState) (hic : st.in_commentary = false) :
    parseStep st "" = some st := by
  rw [parseStep_eq_plain st "" rfl (by simp)
    (parseTagLine.eq_2 ("" : String).data (by intro rest hr; simp at hr))]
  unfold parseStepPlain
  rw [if_neg (by simp), hic]
  simp only [Bool.false_eq_true, if_false]
  rw [show (st.in_auction && !("" : String).isEmpty) = false from by
    rw [show ("" : String).isEmpty = true from rfl]
    simp]
  simp

theorem flushBoard_some (st : PState) (c : PBoard) (hcur : st.current = some c) :
    ∃ b : PBoard, flushBoard st = st.boards ++ [b] ∧
      b.auction_dealer = c.auction_dealer ∧
      b.auction_lines = c.auction_lines ∧ b.notes = c.notes := by
  unfold flushBoard
  rw [hcur]
  refine ⟨if st.commentary_text ≠ "" then
      { c with commentary := String.mk (pyStrip st.commentary_text.data) }
    else c, rfl, ?_, ?_, ?_⟩ <;> split <;> rfl

theorem parseStep_meta5 (bs : List PBoard) (c : PBoard) (ia ic : Bool)
    (ct : String) (tag value : String) (hnm : tag.data ≠ [])
    (hw : ∀ ch ∈ tag.data, wordChar ch = true) (hv : '"' ∉ value.data)
    (hne : tag ≠ "Event") (hna : tag ≠ "Auction") (hnn : tag ≠ "Note") :
    parseStep ⟨bs, some c, ia, ic, ct⟩ (tagLine tag value) =
      some ⟨bs, some { c with meta_tags := c.meta_tags ++ [(tag, value)] },
        ia, ic, ct⟩ :=
  parseStep_meta _ c rfl tag value hnm hw hv hne hna hnn

theorem parseStep_auction5 (bs : List PBoard) (c : PBoard) (ia ic : Bool)
    (ct : String) (value : String) (hv : '"' ∉ value.data) :
    parseStep ⟨bs, some c, ia, ic, ct⟩ (tagLine "Auction" value) =
      some ⟨bs, some { c with auction_dealer := value }, true, ic, ct⟩ :=
  parseStep_auction_tag _ c rfl value hv

theorem parseFold_auction_segment (bs : List PBoard) (c : PBoard) (ct : String)
    (auction : String) (rest : List String)
    (hch : ∀ ch ∈ auction.data, ch ≠ '[' ∧ ch ≠ '{' ∧ ch ≠ '%') :
    parseFold ((match format_auction_lines_list auction with
      | [] => [""]
      | ls => ls) ++ rest) ⟨bs, some c, true, false, ct⟩ =
    parseFold rest ⟨bs, some { c with
      auction_lines := c.auction_lines ++ format_auction_lines_list auction },
      true, false, ct⟩ := by
  cases hA : format_auction_lines_list auction with
  | nil =>
    simp only [hA, List.append_nil]
    rw [show ([""] : List String) ++ rest = "" :: rest from rfl]
    rw [parseFold_cons (parseStep_blank_nc ⟨bs, some c, true, false, ct⟩ rfl)]
  | cons l ls =>
    simp only [hA]
    have hgood := format_lines_good auction hch
    rw [hA] at hgood
    rw [parseFold_append (l :: ls) rest _ _
      (parseFold_body_lines (l :: ls) hgood ⟨bs, some c, true, false, ct⟩ c rfl rfl rfl)]

theorem parseFold_note_segment (bs : List PBoard) (c : PBoard) (ia : Bool)
    (ct : String) (bid_notes : String)
    (notesEntries : List (List Char × List Char)) (rest : List String)
    (hent : ∀ p ∈ notesEntries, p.1 ≠ [] ∧ (∀ ch ∈ p.1, ch.isDigit = true) ∧
      p.2 ≠ [] ∧ '"' ∉ p.1 ++ ':' :: p.2)
    (hnodup : (notesEntries.map fun p => pyInt p.1).Nodup)
    (hfresh : ∀ p ∈ notesEntries, pyInt p.1 ∉ c.notes.map Prod.fst)
    (hsplit : (bid_notes = "" ∧ notesEntries = []) ∨
      (bid_notes ≠ "" ∧ pySplitOn '|' bid_notes.data =
        notesEntries.map fun p => p.1 ++ ':' :: p.2)) :
    ∃ ia2 : Bool,
      parseFold ((if bid_notes ≠ "" then
          (pySplitOn '|' bid_notes.data).map fun e => tagLine "Note" (String.mk e)
        else []) ++ rest) ⟨bs, some c, ia, false, ct⟩ =
      parseFold rest ⟨bs, some { c with
        note_lines := c.note_lines ++
          notesEntries.map (fun p => tagLine "Note" (String.mk (p.1 ++ ':' :: p.2)))
        notes := c.notes ++ notesEntries.map (fun p => (pyInt p.1, String.mk p.2)) },
        ia2, false, ct⟩ := by
  rcases hsplit with ⟨hbn, hes⟩ | ⟨hbn, hes⟩
  · refine ⟨ia, ?_⟩
    subst hes
    rw [if_neg (by simp [hbn])]
    simp only [List.map_nil, List.append_nil, List.nil_append]
  · rw [if_pos hbn, hes, List.map_map]
    obtain ⟨ia2, hN⟩ := parseFold_note_lines notesEntries hent
      ⟨bs, some c, ia, false, ct⟩ c rfl hfresh hnodup
    refine ⟨ia2, ?_⟩
    rw [show List.map ((fun e => tagLine "Note" (String.mk e)) ∘ fun p => p.1 ++ ':' :: p.2) notesEntries =
      List.map (fun p => tagLine "Note" (String.mk (p.1 ++ ':' :: p.2))) notesEntries from rfl]
    exact parseFold_append _ rest _ _ hN

theorem parseFold_comment_segment (bs : List PBoard) (cur : Option PBoard)
    (ia : Bool) (ct : String) (notes : String) (rest : List String) :
    ∃ (ia2 ic2 : Bool) (ct2 : String),
      parseFold ((if notes ≠ "" then ["\x7b " ++ notes ++ " \x7d"] else []) ++ rest)
        ⟨bs, cur, ia, false, ct⟩ =
      parseFold rest ⟨bs, cur, ia2, ic2, ct2⟩ := by
  by_cases hn : notes ≠ ""
  · rw [if_pos hn]
    obtain ⟨ic2, ct2, hstep⟩ :=
      parseStep_comment_line ⟨bs, cur, ia, false, ct⟩ notes
    refine ⟨false, ic2, ct2, ?_⟩
    rw [show (["\x7b " ++ notes ++ " \x7d"] : List String) ++ rest =
      ("\x7b " ++ notes ++ " \x7d") :: rest from rfl]
    rw [parseFold_cons hstep]
  · rw [if_neg hn, List.nil_append]
    exact ⟨ia, false, ct, rfl⟩

/-- **C7.**  Round trip: the Board block written by `stage4` for a
resolved Stage-3 record — reference tag values plus the record's
deal-id, cleaned auction, footnote entries and deal-level notes — is
read back by `parse_boards` as exactly one board whose dealer (the
`Auction` tag value), auction-body lines, and `(footnote-number,
footnote-text)` entries are the ones written.  The hypotheses say the
field values are quote-free and newline-free (so each `f.write` is one
line), the auction contains no `[`/`{`/`%`, and the footnote entries
are well-formed `N:text` pairs with distinct numbers. -/
theorem C7_stage4_parse_round_trip
    (event site date dealer vuln deal deal_id auction bid_notes notes : String)
    (notesEntries : List (List Char × List Char))
    (hvE : '"' ∉ event.data) (hvS : '"' ∉ site.data) (hvD : '"' ∉ date.data)
    (hvDl : '"' ∉ dealer.data) (hvV : '"' ∉ vuln.data) (hvDe : '"' ∉ deal.data)
    (hvB : '"' ∉ deal_id.data)
    (hauc : ∀ ch ∈ auction.data, ch ≠ '[' ∧ ch ≠ '{' ∧ ch ≠ '%')
    (hent : ∀ p ∈ notesEntries, p.1 ≠ [] ∧ (∀ ch ∈ p.1, ch.isDigit = true) ∧
      p.2 ≠ [] ∧ '"' ∉ p.1 ++ ':' :: p.2)
    (hnodup : (notesEntries.map fun p => pyInt p.1).Nodup)
    (hsplit : (bid_notes = "" ∧ notesEntries = []) ∨
      (bid_notes ≠ "" ∧ pySplitOn '|' bid_notes.data =
        notesEntries.map fun p => p.1 ++ ':' :: p.2)) :
    ∃ b : PBoard,
      parse_boards (stage4Header ++ stage4BoardLines event site date dealer
        vuln deal deal_id auction bid_notes notes) = some [b] ∧
      b.auction_dealer = dealer ∧
      b.auction_lines = format_auction_lines_list auction ∧
      b.notes = notesEntries.map (fun p => (pyInt p.1, String.mk p.2)) := by
  have hfold : ∃ (cf : PBoard) (ia ic : Bool) (ct : String),
      parseFold (stage4Header ++ stage4BoardLines event site date dealer
        vuln deal deal_id auction bid_notes notes)
        ⟨[], none, false, false, ""⟩ =
        some ⟨[], some cf, ia, ic, ct⟩ ∧
      cf.auction_dealer = dealer ∧
      cf.auction_lines = format_auction_lines_list auction ∧
      cf.notes = notesEntries.map (fun p => (pyInt p.1, String.mk p.2)) := by
    rw [parseFold_append stage4Header _ _ ⟨[], none, false, false, ""⟩ (by decide)]
    rw [show stage4BoardLines event site date dealer vuln deal deal_id auction bid_notes notes =
      tagLine "Event" event :: tagLine "Site" site :: tagLine "Date" date ::
      tagLine "Board" deal_id :: tagLine "West" "" :: tagLine "North" "" ::
      tagLine "East" "" :: tagLine "South" "" :: tagLine "Dealer" dealer ::
      tagLine "Vulnerable" vuln :: tagLine "Deal" deal :: tagLine "Scoring" "" ::
      tagLine "Declarer" "" :: tagLine "Contract" "" :: tagLine "Result" "" ::
      tagLine "Auction" dealer ::
      ((match format_auction_lines_list auction with
        | [] => [""]
        | ls => ls) ++
       ((if bid_notes ≠ "" then
           (pySplitOn '|' bid_notes.data).map fun e => tagLine "Note" (String.mk e)
         else []) ++
        ((if notes ≠ "" then ["\x7b " ++ notes ++ " \x7d"] else []) ++ [""]))) from by
      unfold stage4BoardLines
      simp only [List.cons_append, List.nil_append, List.append_assoc]
      try rfl]
    rw [parseFold_cons (parseStep_event event hvE)]
    rw [parseFold_cons (parseStep_meta5 _ _ _ _ _ "Site" site (by decide) (by decide) hvS (by decide) (by decide) (by decide))]
    rw [parseFold_cons (parseStep_meta5 _ _ _ _ _ "Date" date (by decide) (by decide) hvD (by decide) (by decide) (by decide))]
    rw [parseFold_cons (parseStep_meta5 _ _ _ _ _ "Board" deal_id (by decide) (by decide) hvB (by decide) (by decide) (by decide))]
    rw [parseFold_cons (parseStep_meta5 _ _ _ _ _ "West" "" (by decide) (by decide) (by decide) (by decide) (by decide) (by decide))]
    rw [parseFold_cons (parseStep_meta5 _ _ _ _ _ "North" "" (by decide) (by decide) (by decide) (by decide) (by decide) (by decide))]
    rw [parseFold_cons (parseStep_meta5 _ _ _ _ _ "East" "" (by decide) (by decide) (by decide) (by decide) (by decide) (by decide))]
    rw [parseFold_cons (parseStep_meta5 _ _ _ _ _ "South" "" (by decide) (by decide) (by decide) (by decide) (by decide) (by decide))]
    rw [parseFold_cons (parseStep_meta5 _ _ _ _ _ "Dealer" dealer (by decide) (by decide) hvDl (by decide) (by decide) (by decide))]
    rw [parseFold_cons (parseStep_meta5 _ _ _ _ _ "Vulnerable" vuln (by decide) (by decide) hvV (by decide) (by decide) (by decide))]
    rw [parseFold_cons (parseStep_meta5 _ _ _ _ _ "Deal" deal (by decide) (by decide) hvDe (by decide) (by decide) (by decide))]
    rw [parseFold_cons (parseStep_meta5 _ _ _ _ _ "Scoring" "" (by decide) (by decide) (by decide) (by decide) (by decide) (by decide))]
    rw [parseFold_cons (parseStep_meta5 _ _ _ _ _ "Declarer" "" (by decide) (by decide) (by decide) (by decide) (by decide) (by decide))]
    rw [parseFold_cons (parseStep_meta5 _ _ _ _ _ "Contract" "" (by decide) (by decide) (by decide) (by decide) (by decide) (by decide))]
    rw [parseFold_cons (parseStep_meta5 _ _ _ _ _ "Result" "" (by decide) (by decide) (by decide) (by decide) (by decide) (by decide))]
    rw [parseFold_cons (parseStep_auction5 _ _ _ _ _ dealer hvDl)]
    rw [parseFold_auction_segment _ _ _ auction _ hauc]
    have key : ∀ c : PBoard, c.notes = [] → c.auction_dealer = dealer →
        c.auction_lines = format_auction_lines_list auction →
        ∃ (cf : PBoard) (ia ic : Bool) (ct : String),
          parseFold ((if bid_notes ≠ "" then
              (pySplitOn '|' bid_notes.data).map fun e => tagLine "Note" (String.mk e)
            else []) ++
            ((if notes ≠ "" then ["\x7b " ++ notes ++ " \x7d"] else []) ++ [""]))
            ⟨[], some c, true, false, ""⟩ = some ⟨[], some cf, ia, ic, ct⟩ ∧
          cf.auction_dealer = dealer ∧
          cf.auction_lines = format_auction_lines_list auction ∧
          cf.notes = notesEntries.map (fun p => (pyInt p.1, String.mk p.2)) := by
      intro c hnotes hdealer hlines
      obtain ⟨ia2, hNseg⟩ := parseFold_note_segment [] c true "" bid_notes
        notesEntries ((if notes ≠ "" then ["\x7b " ++ notes ++ " \x7d"] else []) ++ [""])
        hent hnodup (by rw [hnotes]; simp) hsplit
      rw [hNseg]
      obtain ⟨ia3, ic3, ct3, hCseg⟩ := parseFold_comment_segment []
        (some { c with
          note_lines := c.note_lines ++
            notesEntries.map (fun p => tagLine "Note" (String.mk (p.1 ++ ':' :: p.2)))
          notes := c.notes ++ notesEntries.map (fun p => (pyInt p.1, String.mk p.2)) })
        ia2 "" notes [""]
      rw [hCseg]
      obtain ⟨ic4, ct4, hB⟩ := parseStep_blank
        ⟨[], some { c with
          note_lines := c.note_lines ++
            notesEntries.map (fun p => tagLine "Note" (String.mk (p.1 ++ ':' :: p.2)))
          notes := c.notes ++ notesEntries.map (fun p => (pyInt p.1, String.mk p.2)) },
          ia3, ic3, ct3⟩
      rw [parseFold_cons hB, parseFold_nil]
      refine ⟨_, ia3, ic4, ct4, rfl, ?_, ?_, ?_⟩
      · exact hdealer
      · exact hlines
      · rw [show ({ c with
          note_lines := c.note_lines ++
            notesEntries.map (fun p => tagLine "Note" (String.mk (p.1 ++ ':' :: p.2)))
          notes := c.notes ++ notesEntries.map (fun p => (pyInt p.1, String.mk p.2)) } : PBoard).notes =
            c.notes ++ notesEntries.map (fun p => (pyInt p.1, String.mk p.2)) from rfl]
        rw [hnotes]
        simp
    exact key _ rfl rfl (by simp [freshBoard])
  obtain ⟨cf, ia, ic, ct, hfold, hd, hal, hn⟩ := hfold
  unfold parse_boards
  rw [hfold]
  obtain ⟨b, hb, hbd, hba, hbn⟩ := flushBoard_some ⟨[], some cf, ia, ic, ct⟩ cf rfl
  refine ⟨b, ?_, ?_, ?_, ?_⟩
  · rw [show (some (⟨[], some cf, ia, ic, ct⟩ : PState)).map flushBoard =
      some (flushBoard ⟨[], some cf, ia, ic, ct⟩) from rfl]
    rw [hb]
    rfl
  · rw [hbd, hd]
  · rw [hba, hal]
  · rw [hbn, hn]

/-- Witness for C7: a concrete record with one footnote and a deal-level
note round-trips. -/
theorem C7_witness :
    ∃ b : PBoard,
      parse_boards (stage4Header ++ stage4BoardLines "Precision" "" "2024.01.01"
        "N" "None" "N:AKQJ.T98.76.5432 2.3.4.5 6.7.8.9 T.J.Q.K" "3"
        "1C Pass 1D =1= Pass Pass Pass" "1:waiting" "alert") = some [b] ∧
      b.auction_dealer = "N" ∧
      b.auction_lines = format_auction_lines_list "1C Pass 1D =1= Pass Pass Pass" ∧
      b.notes = [(1, "waiting")] :=
  C7_stage4_parse_round_trip "Precision" "" "2024.01.01" "N" "None"
    "N:AKQJ.T98.76.5432 2.3.4.5 6.7.8.9 T.J.Q.K" "3"
    "1C Pass 1D =1= Pass Pass Pass" "1:waiting" "alert"
    [(['1'], "waiting".data)]
    (by decide) (by decide) (by decide) (by decide) (by decide) (by decide)
    (by decide) (by decide) (by decide) (by decide) (Or.inr ⟨by decide, by decide⟩)

end Bridge
